import Mathlib

/-!
# Verification of the Fallout 1 binary-format engine

This file gives a shallow embedding, in Lean 4, of the binary format engine of
the `fallout1-ce` data tools: the DAT archive reader (`tools/fallout_data/dat.py`),
the LZSS decompressor (`tools/fallout_data/lzss.py`), the script-bytecode
container (`tools/fallout_data/script.py`) and the map deserializer
(`tools/fallout_data/map.py`), together with theorems settling the stated
properties of those components.

Conventions used throughout the embedding:
* a Python `bytes` value is a `List Nat` whose elements are below 256;
* Python `while` loops are modelled by structurally recursive functions with an
  explicit fuel argument; at every use the fuel is chosen so large that the
  loop's own termination argument (each iteration consumes at least one input
  byte) makes the fuel inexhaustible, so the fuel-zero branch coincides with
  the loop's normal exit;
* a Python `struct.error`/`IndexError` raised by an unpacking helper is an
  `Except`/`Option` failure;
* `x & 0xFFF` on a natural number is written `% 4096` (they agree on `Nat`,
  since `0xFFF = 2 ^ 12 - 1`), and similarly for other all-ones masks where
  noted; other bit operations keep `&&&`, `|||`, `>>>`, `<<<`.
-/

set_option maxRecDepth 10000

/-! ## Byte-level helpers -/

/-- A Python `bytes` buffer: a list of byte values. -/
abbrev Bytes := List Nat

/-- All elements of the buffer are genuine byte values. -/
def OkBytes (d : Bytes) : Prop := ∀ b ∈ d, b < 256

instance : DecidablePred OkBytes := fun d =>
  inferInstanceAs (Decidable (∀ b ∈ d, b < 256))

/-- Big-endian 32-bit value of four bytes, as `struct.unpack` with format `>I`. -/
def u32be (b0 b1 b2 b3 : Nat) : Nat := ((b0 * 256 + b1) * 256 + b2) * 256 + b3

/-- Big-endian 16-bit value of two bytes, as `struct.unpack` with format `>H`. -/
def u16be (b0 b1 : Nat) : Nat := b0 * 256 + b1

/-- Reinterpret an unsigned 32-bit value as the signed value with the same
32-bit two's-complement representation, as `struct.unpack` with format `>i`
(and as `ScriptIterator._to_signed32`). -/
def toSigned32 (v : Nat) : Int :=
  if v ≥ 2147483648 then (v : Int) - 4294967296 else (v : Int)

/-- Big-endian four-byte encoding of an unsigned 32-bit value
(input construction helper, inverse of `u32be`). -/
def enc32 (v : Nat) : Bytes :=
  [v / 16777216 % 256, v / 65536 % 256, v / 256 % 256, v % 256]

/-- Big-endian four-byte encoding of a signed 32-bit value: the encoding of its
two's-complement representative (input construction helper). -/
def enc32i (i : Int) : Bytes := enc32 ((i.emod 4294967296).toNat)

/-- Python's `x >> 24 & 0xFF` on a signed 32-bit integer (`>>` is an arithmetic
shift, i.e. flooring division, and `& 0xFF` of any integer is its nonnegative
residue mod 256). Used for SID/PID type tags. -/
def highByteI (x : Int) : Nat := ((x.fdiv 16777216).emod 256).toNat

/-- Python's `i & m` for an arbitrary integer `i` (two's complement) and a mask
`m < 2 ^ 32`: the low 32 bits of `i` are those of `i mod 2 ^ 32`. -/
def pyAnd32 (i : Int) (m : Nat) : Nat := (i.emod 4294967296).toNat &&& m

/-! ## LZSS decompressor (`tools/fallout_data/lzss.py`)

`LZSSDecoder` holds a 4096-byte ring buffer (modelled as a function
`Nat → Nat`, always read modulo 4096) and a write cursor. -/

namespace LZSS

/-- Decoder state: `self.ring_buffer` and `self.ring_index`. -/
structure State where
  ring : Nat → Nat
  idx : Nat

/-- `LZSSDecoder.reset`: ring buffer filled with spaces (byte 32), cursor at
4078 (`RING_BUFFER_FILL`). -/
def resetState : State := ⟨fun _ => 32, 4078⟩

/-- Store one byte at the cursor and advance the cursor; the source's
`(self.ring_index + 1) & 0xFFF` is written `% 4096`. -/
def writeByte (s : State) (b : Nat) : State :=
  ⟨fun j => if j = s.idx then b else s.ring j, (s.idx + 1) % 4096⟩

/-- The dictionary-reference copy loop: `length` iterations, each reading
`self.ring_buffer[(offset + i) & 0xFFF]`, appending it to the output and
writing it back at the cursor (byte-by-byte, so self-overlapping references
see bytes written by earlier iterations of the same copy). -/
def copyRef (s : State) (off : Nat) : Nat → List Nat × State
  | 0 => ([], s)
  | n + 1 =>
    let b := s.ring (off % 4096)
    let s1 := writeByte s b
    let r := copyRef s1 (off + 1) n
    (b :: r.1, r.2)

/-- `LZSSDecoder.update_ring_buffer`: fold raw bytes into the ring buffer
without producing output. -/
def update_ring_buffer (s : State) (data : List Nat) : State :=
  data.foldl writeByte s

/-- Result of (part of) a decode loop: output produced, decoder state,
remaining input, remaining input-byte budget. -/
structure BitsOut where
  out : List Nat
  st : State
  inp : List Nat
  rem : Nat

/-- The `for bit in range(8)` loop of `LZSSDecoder.decode`, parameterised by
the current bit index `bit` and the count `k` of loop iterations left
(`k = 8 - bit` at every call).  `input` is the unread suffix of `data`
(so `pos >= len(data)` is `input = []`). -/
def decodeBits (s : State) (flags : Nat) (bit : Nat) :
    (k : Nat) → (input : List Nat) → (rem : Nat) → BitsOut
  | 0, input, rem => ⟨[], s, input, rem⟩
  | k + 1, input, rem =>
    match input with
    | [] => ⟨[], s, [], rem⟩
    | b :: rest =>
      if rem = 0 then ⟨[], s, b :: rest, rem⟩
      else if flags &&& (1 <<< bit) ≠ 0 then
        -- literal byte
        let s1 := writeByte s b
        let r := decodeBits s1 flags (bit + 1) k rest (rem - 1)
        ⟨b :: r.out, r.st, r.inp, r.rem⟩
      else if rem < 2 then ⟨[], s, b :: rest, rem⟩
      else
        match rest with
        | [] => ⟨[], s, b :: rest, rem⟩  -- `pos + 1 >= len(data)`
        | b1 :: rest' =>
          let off := b ||| ((b1 &&& 0xF0) <<< 4)
          let len := (b1 &&& 0x0F) + 3
          let c := copyRef s off len
          let r := decodeBits c.2 flags (bit + 1) k rest' (rem - 2)
          ⟨c.1 ++ r.out, r.st, r.inp, r.rem⟩

/-- The outer `while bytes_remaining > 0 and pos < len(data)` loop of
`LZSSDecoder.decode`.  Each iteration consumes the flag byte, so
`fuel = length of the input` always suffices and the fuel-zero branch is
only reached with empty input, where it coincides with the loop exit. -/
def decodeLoop : (fuel : Nat) → State → (input : List Nat) → (rem : Nat) → BitsOut
  | 0, s, input, rem => ⟨[], s, input, rem⟩
  | fuel + 1, s, input, rem =>
    if rem = 0 then ⟨[], s, input, rem⟩
    else
      match input with
      | [] => ⟨[], s, [], rem⟩
      | flags :: rest =>
        let r1 := decodeBits s flags 0 8 rest (rem - 1)
        let r2 := decodeLoop fuel r1.st r1.inp r1.rem
        ⟨r1.out ++ r2.out, r2.st, r2.inp, r2.rem⟩

/-- `LZSSDecoder.decode`: reset the state, then consume up to
`compressed_length` input bytes from `data`, returning the decompressed
output. -/
def decode (data : List Nat) (compressed_length : Nat) : List Nat :=
  (decodeLoop data.length resetState data compressed_length).out

/-- `decompress(data)` convenience entry point: one-shot decode with the
default `compressed_length = len(data)`. -/
def decompress (data : List Nat) : List Nat := decode data data.length

/-- The `for bit in range(8)` loop of `LZSSDecoder.decode_stream`.  It differs
from the `decode` loop only in its end-of-source behaviour: reads are
attempted first and a short read breaks out, so a reference token at a
one-byte tail consumes that byte (the `stream.read(2)` call advances the
stream) where `decode` leaves it to be consumed as the next flag byte. -/
def decodeBitsS (s : State) (flags : Nat) (bit : Nat) :
    (k : Nat) → (input : List Nat) → (rem : Nat) → BitsOut
  | 0, input, rem => ⟨[], s, input, rem⟩
  | k + 1, input, rem =>
    if rem = 0 then ⟨[], s, input, rem⟩
    else if flags &&& (1 <<< bit) ≠ 0 then
      match input with
      | [] => ⟨[], s, [], rem⟩  -- `stream.read(1)` returned nothing
      | b :: rest =>
        let s1 := writeByte s b
        let r := decodeBitsS s1 flags (bit + 1) k rest (rem - 1)
        ⟨b :: r.out, r.st, r.inp, r.rem⟩
    else if rem < 2 then ⟨[], s, input, rem⟩
    else
      match input with
      | [] => ⟨[], s, [], rem⟩
      | [_] => ⟨[], s, [], rem⟩  -- `stream.read(2)` got one byte and hit EOF
      | b0 :: b1 :: rest =>
        let off := b0 ||| ((b1 &&& 0xF0) <<< 4)
        let len := (b1 &&& 0x0F) + 3
        let c := copyRef s off len
        let r := decodeBitsS c.2 flags (bit + 1) k rest (rem - 2)
        ⟨c.1 ++ r.out, r.st, r.inp, r.rem⟩

/-- The outer `while bytes_remaining > 0` loop of `LZSSDecoder.decode_stream`;
the state is NOT reset, and the unread suffix of the stream is returned (the
number of bytes consumed is the length difference). -/
def decodeLoopS : (fuel : Nat) → State → (input : List Nat) → (rem : Nat) → BitsOut
  | 0, s, input, rem => ⟨[], s, input, rem⟩
  | fuel + 1, s, input, rem =>
    if rem = 0 then ⟨[], s, input, rem⟩
    else
      match input with
      | [] => ⟨[], s, [], rem⟩  -- flag-byte read failed
      | flags :: rest =>
        let r1 := decodeBitsS s flags 0 8 rest (rem - 1)
        let r2 := decodeLoopS fuel r1.st r1.inp r1.rem
        ⟨r1.out ++ r2.out, r2.st, r2.inp, r2.rem⟩

/-- `LZSSDecoder.decode_stream`: decode `compressed_length` input bytes from
the stream (here: the unread suffix `input`) without resetting the state. -/
def decode_stream (s : State) (input : List Nat) (compressed_length : Nat) : BitsOut :=
  decodeLoopS input.length s input compressed_length

end LZSS

/-! ## DAT archive reader (`tools/fallout_data/dat.py`) -/

/-- `bytes.decode('ascii', errors='replace')`: bytes below 128 map to
themselves, others to U+FFFD; the result is a list of code points. -/
def decodeAsciiReplace (bs : Bytes) : Bytes :=
  bs.map (fun b => if b < 128 then b else 65533)

/-- Python `str.upper()` on the code points produced above (ASCII letters and
U+FFFD only): lowercase ASCII letters map to uppercase. -/
def strUpper (s : Bytes) : Bytes :=
  s.map (fun c => if 97 ≤ c ∧ c ≤ 122 then c - 32 else c)

/-- `path.upper().replace('/', '\\')`: the lookup key normalisation used by
`read_file`, `get_entry` and `exists`. -/
def pathKey (p : Bytes) : Bytes :=
  (strUpper p).map (fun c => if c = 47 then 92 else c)

/-- `self._file.seek(off)` followed by `self._file.read(n)` (a read past the
end returns the available bytes). -/
def fileRead (file : Bytes) (off n : Nat) : Bytes := (file.drop off).take n

/-- A file entry of a DAT archive (`DATEntry`). -/
structure DATEntry where
  path : Bytes
  flags : Nat
  offset : Nat
  packed_size : Nat
  unpacked_size : Nat
  deriving DecidableEq, Repr

/-- Lookup in the `_entries` dict (insertion order, later insertions with the
same key win, as in a Python dict). -/
def dictFind (m : List (Bytes × DATEntry)) (k : Bytes) : Option DATEntry :=
  (m.reverse.find? (fun p => p.1 == k)).map Prod.snd

/-- `DATArchive._read_u32_be` at a stream position: a short read yields 0;
the position advances by the number of bytes actually read. -/
def read_u32 (file : Bytes) (pos : Nat) : Nat × Nat :=
  let chunk := (file.drop pos).take 4
  (match chunk with
   | [a, b, c, d] => u32be a b c d
   | _ => 0,
   pos + chunk.length)

/-- `DATArchive._read_key`: a length byte followed by that many ASCII bytes,
decoded with replacement. -/
def read_key (file : Bytes) (pos : Nat) : Bytes × Nat :=
  match (file.drop pos).take 1 with
  | [] => ([], pos)
  | lb :: _ =>
    let kd := (file.drop (pos + 1)).take lb
    (decodeAsciiReplace kd, pos + 1 + kd.length)

/-- The directory-name loop of `DATArchive._parse_index`: `count` keys, each
followed by `root_datasize` skipped bytes when that size is nonzero. -/
def readDirNames (file : Bytes) : (count : Nat) → (pos : Nat) → (ds : Nat) →
    List Bytes × Nat
  | 0, pos, _ => ([], pos)
  | n + 1, pos, ds =>
    let k := read_key file pos
    let p2 := if ds > 0 then k.2 + ((file.drop k.2).take ds).length else k.2
    let r := readDirNames file n p2 ds
    (k.1 :: r.1, r.2)

/-- One directory's file-entry loop of `DATArchive._parse_index`: `count`
length-prefixed filename keys, each followed (when the directory's
per-entry data size is 16) by flags, offset, unpacked size and packed size,
in that order; any other nonzero data size is skipped. -/
def readDirEntries (file : Bytes) (dirName : Bytes) :
    (count : Nat) → (pos : Nat) → (ds : Nat) → List (Bytes × DATEntry) × Nat
  | 0, pos, _ => ([], pos)
  | n + 1, pos, ds =>
    let k := read_key file pos
    if ds = 16 then
      let f := read_u32 file k.2
      let o := read_u32 file f.2
      let u := read_u32 file o.2
      let p := read_u32 file u.2
      let full_path := if dirName ≠ [] then dirName ++ 92 :: k.1 else k.1
      let e : DATEntry := ⟨full_path, f.1, o.1, p.1, u.1⟩
      let r := readDirEntries file dirName n p.2 ds
      ((strUpper full_path, e) :: r.1, r.2)
    else
      let p2 := if ds > 0 then k.2 + ((file.drop k.2).take ds).length else k.2
      readDirEntries file dirName n p2 ds

/-- The per-directory loop of `DATArchive._parse_index`: for each directory
name, a four-word header then that directory's file entries. -/
def readDirsLoop (file : Bytes) : (dirs : List Bytes) → (pos : Nat) →
    List (Bytes × DATEntry) × Nat
  | [], pos => ([], pos)
  | d :: ds, pos =>
    let c := read_u32 file pos
    let m := read_u32 file c.2
    let z := read_u32 file m.2
    let un := read_u32 file z.2
    let es := readDirEntries file d c.1 un.2 z.1
    let r := readDirsLoop file ds es.2
    (es.1 ++ r.1, r.2)

/-- `DATArchive._parse_index`: root header, directory names, then each
directory's entries, keyed by the uppercased full path. -/
def parse_index (file : Bytes) : List (Bytes × DATEntry) :=
  let rc := read_u32 file 0
  let rm := read_u32 file rc.2
  let rd := read_u32 file rm.2
  let ru := read_u32 file rd.2
  if rc.1 = 0 then []
  else
    let dirs := readDirNames file rc.1 ru.2 rd.1
    (readDirsLoop file dirs.1 dirs.2).1

/-- An open `DATArchive`: the underlying file bytes and the parsed index. -/
structure DATArchive where
  file : Bytes
  entries : List (Bytes × DATEntry)

/-- `DATArchive.open`: parse the index of the given file bytes. -/
def openDAT (file : Bytes) : DATArchive := ⟨file, parse_index file⟩

/-- Result of the chunked-read loop: output, decoder state, unread suffix. -/
structure ChunkOut where
  out : List Nat
  st : LZSS.State
  inp : Bytes

/-- The `while len(result) < target_length` loop of `DATArchive._read_chunked`:
read a two-byte big-endian chunk header; high bit set means a raw chunk of
`header & 0x7FFF` bytes copied through and folded into the ring buffer,
otherwise an LZSS sub-block of `header` compressed bytes decoded by
`decode_stream` without resetting state.  Each iteration consumes the
two header bytes, so fuel `input.length + 1` always suffices. -/
def readChunkedLoop : (fuel : Nat) → LZSS.State → (input : Bytes) →
    (target produced : Nat) → ChunkOut
  | 0, s, input, _, _ => ⟨[], s, input⟩
  | fuel + 1, s, input, target, produced =>
    if produced < target then
      match input with
      | [] => ⟨[], s, []⟩
      | [_] => ⟨[], s, []⟩  -- header read returned fewer than 2 bytes
      | b0 :: b1 :: rest =>
        let header := b0 * 256 + b1
        if header &&& 0x8000 ≠ 0 then
          let size := header &&& 0x7FFF
          let chunk := rest.take size
          let s1 := LZSS.update_ring_buffer s chunk
          let r := readChunkedLoop fuel s1 (rest.drop size) target (produced + chunk.length)
          ⟨chunk ++ r.out, r.st, r.inp⟩
        else
          let d := LZSS.decode_stream s rest header
          let r := readChunkedLoop fuel d.st d.inp target (produced + d.out.length)
          ⟨d.out ++ r.out, r.st, r.inp⟩
    else ⟨[], s, input⟩

/-- `DATArchive._read_chunked`: reset the decoder once for the file, run the
chunk loop from the entry's offset, and truncate the result to
`unpacked_size`. -/
def read_chunked (a : DATArchive) (e : DATEntry) : Bytes :=
  let input := a.file.drop e.offset
  ((readChunkedLoop (input.length + 1) LZSS.resetState input e.unpacked_size 0).out).take
    e.unpacked_size

/-- `DATArchive.read_file`: normalise the query path, look the entry up, and
dispatch on the high nibble of the entry's flags word. -/
def read_file (a : DATArchive) (path : Bytes) : Option Bytes :=
  let path_key := pathKey path
  match dictFind a.entries path_key with
  | none => none
  | some e =>
    let flag := e.flags &&& 0xF0
    if flag = 0x20 then some (fileRead a.file e.offset e.packed_size)
    else if flag = 0x10 then
      let data := fileRead a.file e.offset e.packed_size
      some (LZSS.decode data e.unpacked_size)
    else if flag = 0x40 then some (read_chunked a e)
    else some (fileRead a.file e.offset e.packed_size)  -- unknown format: raw

/-- `DATArchive.get_entry`: metadata lookup, no decompression. -/
def get_entry (a : DATArchive) (path : Bytes) : Option DATEntry :=
  dictFind a.entries (pathKey path)

/-- `DATArchive.exists`: membership of the normalised key in the index. -/
def exists_path (a : DATArchive) (path : Bytes) : Bool :=
  (dictFind a.entries (pathKey path)).isSome

/-! ## Token-level semantics of the LZSS variant

To state the decoder's correctness we introduce the abstract token streams the
byte format encodes: a token is either a literal byte or a back-reference into
the ring buffer.  `runTokens` is the reference semantics: a literal is emitted
and stored at the cursor; a reference copies `len` bytes starting at `off`
one at a time through the cursor (`copyRef`), exactly as the decoder does.
`encodeTokens` packs a token list into the byte format: groups of up to eight
tokens, each preceded by a flag byte whose bit `i` (tested low-to-high) is set
exactly when token `i` of the group is a literal. -/

namespace LZSS

/-- An abstract token of the compressed stream. -/
inductive Token where
  | lit (b : Nat)
  | ref (off len : Nat)
  deriving DecidableEq

/-- A token representable in the byte format: literals are bytes, references
have a 12-bit offset and a length between 3 and 18. -/
def Token.WF : Token → Prop
  | .lit b => b < 256
  | .ref off len => off < 4096 ∧ 3 ≤ len ∧ len ≤ 18

instance : DecidablePred Token.WF := fun t => by
  cases t <;> simp only [Token.WF] <;> infer_instance

/-- Whether a token is a literal. -/
def Token.isLit : Token → Bool
  | .lit _ => true
  | .ref _ _ => false

/-- Reference semantics of one token. -/
def runToken (s : State) : Token → List Nat × State
  | .lit b => ([b], writeByte s b)
  | .ref off len => copyRef s off len

/-- Reference semantics of a token list: output and final decoder state. -/
def runTokens (s : State) : List Token → List Nat × State
  | [] => ([], s)
  | t :: ts =>
    let r := runToken s t
    let r2 := runTokens r.2 ts
    (r.1 ++ r2.1, r2.2)

/-- Number of output bytes a token produces (state-independent). -/
def Token.outLen : Token → Nat
  | .lit _ => 1
  | .ref _ len => len

/-- Number of output bytes of a token list. -/
def tokensOutLen (ts : List Token) : Nat := (ts.map Token.outLen).sum

/-- Byte encoding of one token (without its flag bit): a literal is its byte;
a reference is the low offset byte followed by the byte packing the high
offset nibble (high half) and `len - 3` (low half). -/
def Token.enc : Token → List Nat
  | .lit b => [b]
  | .ref off len => [off % 256, off / 256 * 16 + (len - 3)]

/-- Flag byte of a group: bit `i` is set iff token `i` is a literal. -/
def flagsOf : List Token → Nat
  | [] => 0
  | t :: ts => (if t.isLit then 1 else 0) + 2 * flagsOf ts

/-- Token bytes of a group, flag bits excluded. -/
def encToks (g : List Token) : List Nat := (g.map Token.enc).flatten

/-- One encoded group: flag byte then token bytes. -/
def encGroup (g : List Token) : List Nat := flagsOf g :: encToks g

/-- Fuelled encoder: split the token list into groups of eight.  Each group
consumes at least one token, so fuel `ts.length` suffices. -/
def encodeTokensF : Nat → List Token → List Nat
  | 0, _ => []
  | _ + 1, [] => []
  | fuel + 1, t :: ts => encGroup ((t :: ts).take 8) ++ encodeTokensF fuel ((t :: ts).drop 8)

/-- Byte encoding of a token list in the decoder's input format. -/
def encodeTokens (ts : List Token) : List Nat := encodeTokensF ts.length ts

/-- A chunk of a chunked DAT entry: either raw bytes (copied through and folded
into the ring buffer) or an LZSS-compressed token group. -/
inductive Chunk where
  | raw (bs : List Nat)
  | lz (ts : List Token)

/-- The logical token content of a chunk: raw bytes are literal tokens. -/
def Chunk.tokens : Chunk → List Token
  | .raw bs => bs.map Token.lit
  | .lz ts => ts

/-- Chunk representable in the 15-bit-size chunk format. -/
def Chunk.WF : Chunk → Prop
  | .raw bs => (∀ b ∈ bs, b < 256) ∧ bs.length ≤ 0x7FFF
  | .lz ts => (∀ t ∈ ts, t.WF) ∧ (encodeTokens ts).length < 0x8000

/-- Big-endian two-byte encoding of a 16-bit value. -/
def enc16 (v : Nat) : List Nat := [v / 256 % 256, v % 256]

/-- Byte encoding of one chunk: two-byte big-endian header (`0x8000 | size`
for a raw chunk, the compressed byte count for an LZSS chunk), then the
chunk's payload bytes. -/
def Chunk.enc : Chunk → List Nat
  | .raw bs => enc16 (0x8000 + bs.length) ++ bs
  | .lz ts => enc16 (encodeTokens ts).length ++ encodeTokens ts

instance : DecidablePred Chunk.WF := fun c => by
  cases c
  · simp only [Chunk.WF]
    infer_instance
  · simp only [Chunk.WF]
    infer_instance

/-- Byte encoding of a chunk list. -/
def encodeChunks (cs : List Chunk) : List Nat := (cs.map Chunk.enc).flatten

/-- Logical token content of a chunk list. -/
def chunksTokens (cs : List Chunk) : List Token := (cs.map Chunk.tokens).flatten

end LZSS

/-! ## Script bytecode container (`tools/fallout_data/script.py`) -/

namespace Script

/-- `Script.read_word`: big-endian 16-bit read at an absolute offset; an
out-of-range read raises `IndexError` (`none`). -/
def read_word (data : Bytes) (off : Nat) : Option Nat :=
  match (data.drop off).take 2 with
  | [b0, b1] => some (u16be b0 b1)
  | _ => none

/-- `Script.read_long`: big-endian 32-bit read at an absolute offset; an
out-of-range read raises `IndexError` (`none`). -/
def read_long (data : Bytes) (off : Nat) : Option Nat :=
  match (data.drop off).take 4 with
  | [b0, b1, b2, b3] => some (u32be b0 b1 b2 b3)
  | _ => none

/-- `read_long` at an offset the caller has already bounds-checked
(returns 0 out of range; each use site is guarded as in the source). -/
def long_at (data : Bytes) (off : Nat) : Nat :=
  match (data.drop off).take 4 with
  | [b0, b1, b2, b3] => u32be b0 b1 b2 b3
  | _ => 0

/-- A `Procedure` record of the script's procedure table. -/
structure Procedure where
  index : Nat
  name_offset : Nat
  flags : Nat
  time_value : Nat
  condition_address : Nat
  code_address : Nat
  arg_count : Nat
  name : Bytes
  deriving DecidableEq, Repr

/-- The `for i in range(proc_count)` loop of `Script._parse`: 24-byte
procedure records starting at `ptr`; a record extending past the end of the
buffer stops the loop ("break"), keeping earlier records. -/
def readProcs (data : Bytes) : (count : Nat) → (i ptr : Nat) → List Procedure × Nat
  | 0, _, ptr => ([], ptr)
  | n + 1, i, ptr =>
    if ptr + 24 > data.length then ([], ptr)
    else
      let p : Procedure :=
        ⟨i, long_at data ptr, long_at data (ptr + 4), long_at data (ptr + 8),
          long_at data (ptr + 12), long_at data (ptr + 16), long_at data (ptr + 20), []⟩
      let r := readProcs data n (i + 1) (ptr + 24)
      (p :: r.1, r.2)

/-- A parsed script module (`Script`): underlying bytes, procedure table and
the table offsets computed by `_parse`. -/
structure ScriptS where
  data : Bytes
  procedures : List Procedure
  identifiers_offset : Nat
  identifiers_size : Nat
  static_strings_offset : Nat
  static_strings_size : Nat
  code_end : Nat
  deriving DecidableEq, Repr

/-- The NUL-terminated byte string starting at an absolute offset (the scan
`while end < len(self._data) and self._data[end] != 0`). -/
def nullTermString (data : Bytes) (abs : Nat) : Bytes :=
  (data.drop abs).takeWhile (fun b => b != 0)

/-- `Script.get_identifier`: the string `offset` bytes past
`_identifiers_offset` (which is the position of the identifiers-table length
field itself).  Out-of-range offsets give the empty string.  The source also
accepts a negative offset (returning `""`); offsets here are unsigned, as are
all stored `name_offset` fields. -/
def get_identifier (s : ScriptS) (offset : Nat) : Bytes :=
  let abs := s.identifiers_offset + offset
  if abs ≥ s.data.length then []
  else decodeAsciiReplace (nullTermString s.data abs)

/-- `Script.get_static_string`: the string `offset` bytes past the end of the
static-strings length field (`_static_strings_offset + 4`). -/
def get_static_string (s : ScriptS) (offset : Nat) : Bytes :=
  let abs := s.static_strings_offset + 4 + offset
  if abs ≥ s.data.length then []
  else decodeAsciiReplace (nullTermString s.data abs)

/-- `Script._parse` (via `Script.__init__`): fails (`ValueError`) only when
the buffer cannot hold the minimum fixed header (bootstrap code plus the
procedure count at offset 42); everything later degrades to empty or
partial tables.  Procedure names are resolved through `get_identifier`. -/
def parse (data : Bytes) : Option ScriptS :=
  if data.length < 42 + 4 then none
  else
    let proc_count := long_at data 42
    let pr := readProcs data proc_count 0 (42 + 4)
    let identifiers_offset := pr.2
    let identifiers_size :=
      if identifiers_offset + 4 ≤ data.length then long_at data identifiers_offset else 0
    let sso := identifiers_offset + 4 + identifiers_size
    let sss :=
      if sso + 4 ≤ data.length then
        let raw := long_at data sso
        if raw > data.length ∨ raw = 0xFFFFFFFF then data.length - sso - 4 else raw
      else 0
    let base : ScriptS := ⟨data, pr.1, identifiers_offset, identifiers_size, sso, sss,
      data.length⟩
    some { base with
      procedures := pr.1.map (fun p => { p with name := get_identifier base p.name_offset }) }

/-- The value of a decoded IEEE-754 binary32 bit pattern.
Modelled from the spec: `struct.unpack('>f', struct.pack('>I', raw_value))`
reinterprets the same four bytes as an IEEE-754 single-precision float; the
Python runtime's float decoding itself is outside the repository, so its
standard semantics (sign bit, 8 exponent bits, 23 mantissa bits, with
subnormals, infinities and NaNs) is modelled here, with finite values exact
as rationals. -/
inductive IEEEVal where
  | finite (q : ℚ)
  | inf (neg : Bool)
  | nan
  deriving DecidableEq

/-- Decode an IEEE-754 binary32 bit pattern (see `IEEEVal`). -/
def floatOfBits (bits : Nat) : IEEEVal :=
  let sign : Nat := bits / 2 ^ 31 % 2
  let e : Nat := bits / 2 ^ 23 % 256
  let m : Nat := bits % 2 ^ 23
  if e = 255 then
    if m = 0 then .inf (sign == 1) else .nan
  else
    let mag : ℚ :=
      if e = 0 then (m : ℚ) * (2 : ℚ) ^ (-(149 : ℤ))
      else ((2 ^ 23 + m : Nat) : ℚ) * (2 : ℚ) ^ ((e : ℤ) - 150)
    .finite (if sign = 1 then -mag else mag)

/-- A decoded PUSH operand, tagged the way `Instruction.operand_type` tags it:
a signed integer, a float, a resolved static string, or an unresolved
dynamic-string-table offset. -/
inductive Operand where
  | int (i : Int)
  | float (v : IEEEVal)
  | str (s : Bytes)
  | dyn (n : Nat)
  deriving DecidableEq

/-- A decoded `Instruction`. -/
structure Instruction where
  offset : Nat
  opcode : Nat
  operand : Option Operand
  size : Nat
  deriving DecidableEq

/-- `ScriptIterator.next`: returns the decoded instruction and the new
iterator offset.  A PUSH opcode (low 10 bits equal 1) with four more bytes
available before `code_end` takes a 4-byte operand whose interpretation is
selected by the flag bits of the opcode's high byte, tested in the order
int (0x40), float (0x20), static string (0x10), dynamic string (0x08), with
a bare PUSH treated as an integer.  (The `read_word`/`read_long` failure
branches are unreachable because `has_more` was checked and
`code_end = len(data)`.) -/
def iterNext (s : ScriptS) (offset : Nat) : Option Instruction × Nat :=
  if ¬ offset + 2 ≤ s.code_end then (none, offset)
  else
    match read_word s.data offset with
    | none => (none, offset)
    | some opcode =>
      let off1 := offset + 2
      let hb := (opcode >>> 8) &&& 0xFF
      if opcode &&& 0x3FF = 1 then
        if off1 + 4 ≤ s.code_end then
          match read_long s.data off1 with
          | none => (some ⟨offset, opcode, none, 2⟩, off1)
          | some raw =>
            let op :=
              if hb &&& 0x40 ≠ 0 then Operand.int (toSigned32 raw)
              else if hb &&& 0x20 ≠ 0 then Operand.float (floatOfBits raw)
              else if hb &&& 0x10 ≠ 0 then Operand.str (get_static_string s raw)
              else if hb &&& 0x08 ≠ 0 then Operand.dyn raw
              else Operand.int (toSigned32 raw)
            (some ⟨offset, opcode, some op, 6⟩, off1 + 4)
        else (some ⟨offset, opcode, none, 2⟩, off1)
      else (some ⟨offset, opcode, none, 2⟩, off1)

end Script

/-! ## Map deserializer (`tools/fallout_data/map.py`)

Reads through a `_BinaryReader` are modelled by the state-and-except monad
`PRead`: a computation takes the current offset and either returns a value
with the new offset or fails (`struct.error`) carrying the offset at the
point of failure, which is where the Python reader is left when an
exception is caught. -/

namespace FMap

/-- A `_BinaryReader` computation: offset in, value and offset out, or the
failure offset. -/
def PRead (α : Type) : Type := Nat → Except Nat (α × Nat)

instance : Monad PRead where
  pure a := fun off => .ok (a, off)
  bind m f := fun off =>
    match m off with
    | .error e => .error e
    | .ok (a, off') => f a off'

/-- `_BinaryReader.read_int32`: big-endian signed 32-bit; fewer than four
bytes left raises `struct.error` without advancing. -/
def rdI32 (data : Bytes) : PRead Int := fun off =>
  match (data.drop off).take 4 with
  | [b0, b1, b2, b3] => .ok (toSigned32 (u32be b0 b1 b2 b3), off + 4)
  | _ => .error off

/-- `_BinaryReader.read_bytes`: a slice, short at the end of the buffer; the
offset advances by the full requested count regardless. -/
def rdBytes (data : Bytes) (n : Nat) : PRead Bytes := fun off =>
  .ok ((data.drop off).take n, off + n)

/-- `_BinaryReader.skip`. -/
def rdSkip (n : Nat) : PRead Unit := fun off => .ok ((), off + n)

/-- `struct.unpack('>i', data[off:off+4])` used directly on the buffer (the
scripts section reads this way rather than through a reader). -/
def i32At (data : Bytes) (off : Nat) : Option Int :=
  match (data.drop off).take 4 with
  | [b0, b1, b2, b3] => some (toSigned32 (u32be b0 b1 b2 b3))
  | _ => none

/-- `bytes.rstrip(b'\x00')`. -/
def rstripZeros (bs : Bytes) : Bytes := (bs.reverse.dropWhile (fun b => b == 0)).reverse

/-- `MapHeader`. -/
structure MapHeader where
  version : Int
  name : Bytes
  entering_tile : Int
  entering_elevation : Int
  entering_rotation : Int
  local_variables_count : Int
  message_list_index : Int
  flags : Int
  darkness : Int
  global_variables_count : Int
  map_id : Int
  last_visit_time : Int
  deriving DecidableEq, Repr

/-- `MapParser._read_header`: the fixed 236-byte header record (twelve int32
fields, a 16-byte name, and 44 reserved words); its reads are unguarded, so
a short buffer propagates `struct.error` out of `parse`. -/
def read_header (data : Bytes) : PRead MapHeader := do
  let version ← rdI32 data
  let nameBytes ← rdBytes data 16
  let entering_tile ← rdI32 data
  let entering_elevation ← rdI32 data
  let entering_rotation ← rdI32 data
  let local_vars_count ← rdI32 data
  let message_list_index ← rdI32 data
  let flags ← rdI32 data
  let darkness ← rdI32 data
  let global_vars_count ← rdI32 data
  let map_id ← rdI32 data
  let last_visit_time ← rdI32 data
  let _ ← rdSkip (44 * 4)
  pure ⟨version, decodeAsciiReplace (rstripZeros nameBytes), entering_tile,
    entering_elevation, entering_rotation, local_vars_count, message_list_index, flags,
    darkness, global_vars_count, map_id, last_visit_time⟩

/-- `MapScript`: one script record of the map's scripts section; fields not
set for a record's type keep their dataclass defaults (0). -/
structure MapScript where
  scr_id : Int := 0
  scr_next : Int := 0
  built_tile : Int := 0
  radius : Int := 0
  time : Int := 0
  scr_flags : Int := 0
  scr_script_idx : Int := 0
  scr_oid : Int := -1
  scr_local_var_offset : Int := 0
  scr_num_local_vars : Int := 0
  field_28 : Int := 0
  action : Int := 0
  fixed_param : Int := 0
  action_being_used : Int := 0
  script_overrides : Int := 0
  field_48 : Int := 0
  how_much : Int := 0
  run_info_flags : Int := 0
  deriving DecidableEq, Repr

/-- The thirteen common fields of one script slot (the program pointer at
`offset + 8` is skipped), starting at `off`; the slot ends 56 bytes later. -/
def read_commons (data : Bytes) (off : Nat) (scr_id scr_next built_tile radius time : Int) :
    Option (MapScript × Nat) :=
  match i32At data off, i32At data (off + 4), i32At data (off + 12), i32At data (off + 16),
      i32At data (off + 20), i32At data (off + 24), i32At data (off + 28),
      i32At data (off + 32), i32At data (off + 36), i32At data (off + 40),
      i32At data (off + 44), i32At data (off + 48), i32At data (off + 52) with
  | some scr_flags, some scr_script_idx, some scr_oid, some scr_local_var_offset,
      some scr_num_local_vars, some field_28, some action, some fixed_param,
      some action_being_used, some script_overrides, some field_48, some how_much,
      some run_info_flags =>
    some (⟨scr_id, scr_next, built_tile, radius, time, scr_flags, scr_script_idx, scr_oid,
      scr_local_var_offset, scr_num_local_vars, field_28, action, fixed_param,
      action_being_used, script_overrides, field_48, how_much, run_info_flags⟩, off + 56)
  | _, _, _, _, _, _, _, _, _, _, _, _, _ => none

/-- One script slot of an extent: `scr_id` and `scr_next`, then the
type-specific extra words selected by the SID type tag in the high byte of
`scr_id` (Spatial `1`: packed tile and radius, two words; Timed `2`: trigger
time, one word; anything else: none), then the common fields.  `none` is any
failed read, which aborts the whole scripts section. -/
def read_script_slot (data : Bytes) (off : Nat) : Option (MapScript × Nat) :=
  if off + 8 > data.length then none
  else
    match i32At data off, i32At data (off + 4) with
    | some scr_id, some scr_next =>
      let sid_type := highByteI scr_id
      if sid_type = 1 then
        match i32At data (off + 8), i32At data (off + 12) with
        | some built_tile, some radius =>
          read_commons data (off + 16) scr_id scr_next built_tile radius 0
        | _, _ => none
      else if sid_type = 2 then
        match i32At data (off + 8) with
        | some time => read_commons data (off + 12) scr_id scr_next 0 0 time
        | none => none
      else read_commons data (off + 8) scr_id scr_next 0 0 0
    | _, _ => none

/-- The sixteen slots of one extent. -/
def read_extent_slots (data : Bytes) : (k : Nat) → (off : Nat) → Option (List MapScript × Nat)
  | 0, off => some ([], off)
  | k + 1, off => do
    let s ← read_script_slot data off
    let r ← read_extent_slots data k s.2
    pure (s.1 :: r.1, r.2)

/-- The extent loop of one script-type bucket: each extent's sixteen slots
are read, then its trailing `(valid-length, ignored-pointer)` pair; only the
first `valid-length` slots are kept.  A failure aborts the section
(`none` continuation) but keeps the scripts of completed extents. -/
def read_extents (data : Bytes) : (n : Nat) → (off : Nat) → List MapScript × Option Nat
  | 0, off => ([], some off)
  | n + 1, off =>
    match read_extent_slots data 16 off with
    | none => ([], none)
    | some (slots, off1) =>
      match i32At data off1 with
      | none => ([], none)
      | some extent_length =>
        let kept := slots.take (min extent_length 16).toNat
        let r := read_extents data n (off1 + 8)
        (kept ++ r.1, r.2)

/-- The five script-type buckets, in order: a count word each; a positive
count is stored in `ceil(count / 16)` extents.  Aborts keep everything
already parsed and return no continuation offset (the source's `-1`). -/
def read_script_types (data : Bytes) :
    (types : List Nat) → (off : Nat) → List MapScript × List (List MapScript) × Option Nat
  | [], off => ([], [], some off)
  | _ :: ts, off =>
    if off + 4 > data.length then ([], [], none)
    else
      match i32At data off with
      | none => ([], [], none)
      | some cnt =>
        if cnt ≤ 0 then
          let r := read_script_types data ts (off + 4)
          (r.1, [] :: r.2.1, r.2.2)
        else
          let num_extents := (cnt.toNat + 16 - 1) / 16
          let ext := read_extents data num_extents (off + 4)
          match ext.2 with
          | none => (ext.1, [ext.1], none)
          | some off2 =>
            let r := read_script_types data ts off2
            (ext.1 ++ r.1, ext.1 :: r.2.1, r.2.2)

/-- `MapParser._read_scripts_section`: all five buckets; the by-type buckets
are padded to five (the Python dict is pre-seeded with all five keys). -/
def read_scripts_section (data : Bytes) (off : Nat) :
    List MapScript × List (List MapScript) × Option Nat :=
  let r := read_script_types data [0, 1, 2, 3, 4] off
  (r.1, r.2.1 ++ List.replicate (5 - r.2.1.length) [], r.2.2)

/-- `CombatData`. -/
structure CombatData where
  damage_last_turn : Int
  maneuver : Int
  ap : Int
  results : Int
  ai_packet : Int
  team : Int
  who_hit_me_cid : Int
  deriving DecidableEq, Repr

/-- `CritterData`. -/
structure CritterData where
  reaction : Int
  combat : CombatData
  hp : Int
  radiation : Int
  poison : Int
  deriving DecidableEq, Repr

/-- `WeaponData`. -/
structure WeaponData where
  ammo_quantity : Int
  ammo_type_pid : Int
  deriving DecidableEq, Repr

/-- `StairsData`. -/
structure StairsData where
  destination_map : Int
  destination_built_tile : Int
  deriving DecidableEq, Repr

/-- `ElevatorData`. -/
structure ElevatorData where
  type : Int
  level : Int
  deriving DecidableEq, Repr

/-- `ExitGridData`. -/
structure ExitGridData where
  map : Int
  tile : Int
  elevation : Int
  rotation : Int
  deriving DecidableEq, Repr

/-- `MapObject`: the eighteen base fields, the inventory header, the
recursive inventory (pairs of quantity and owned child object), and the
optional type-specific payloads (single-field payloads carry the raw word:
ammo quantity, misc charges, key code, door flag word, ladder destination). -/
inductive MapObject where
  | mk
    (id tile x y sx sy frame rotation fid flags elevation pid cid
      light_distance light_intensity sid message_list_index : Int)
    (inventory_length inventory_capacity : Int)
    (inventory : List (Int × MapObject))
    (critter_data : Option CritterData)
    (item_flags : Int)
    (weapon_data : Option WeaponData)
    (ammo_data : Option Int)
    (misc_item_data : Option Int)
    (key_data : Option Int)
    (door_data : Option Int)
    (stairs_data : Option StairsData)
    (elevator_data : Option ElevatorData)
    (ladder_data : Option Int)
    (exit_grid_data : Option ExitGridData)

/-- The object's prototype id. -/
def MapObject.pid : MapObject → Int
  | .mk _ _ _ _ _ _ _ _ _ _ _ pid _ _ _ _ _ _ _ _ _ _ _ _ _ _ _ _ _ _ _ => pid

/-- The object's elevation field. -/
def MapObject.elevation : MapObject → Int
  | .mk _ _ _ _ _ _ _ _ _ _ elevation _ _ _ _ _ _ _ _ _ _ _ _ _ _ _ _ _ _ _ _ => elevation

/-- The object's inventory. -/
def MapObject.inventory : MapObject → List (Int × MapObject)
  | .mk _ _ _ _ _ _ _ _ _ _ _ _ _ _ _ _ _ _ _ inv _ _ _ _ _ _ _ _ _ _ _ => inv

/-- The parser's configuration: the two externally supplied PID-to-subtype
tables (`proto_item_types`, `proto_scenery_types`), as association lists
with Python-dict lookup (later bindings win). -/
structure MapParser where
  proto_item_types : List (Int × Int)
  proto_scenery_types : List (Int × Int)

/-- `dict.get`. -/
def dictGet (m : List (Int × Int)) (k : Int) : Option Int :=
  (m.reverse.find? (fun p => p.1 == k)).map Prod.snd

/-- The type-specific payload read by `_read_proto_update_data` together with
the inventory header; `_read_item_data`, `_read_scenery_data` and
`_read_misc_data` are inlined as the three dispatch arms. -/
structure ProtoUpdate where
  inventory_length : Int
  inventory_capacity : Int
  critter_data : Option CritterData
  item_flags : Int
  weapon_data : Option WeaponData
  ammo_data : Option Int
  misc_item_data : Option Int
  key_data : Option Int
  door_data : Option Int
  stairs_data : Option StairsData
  elevator_data : Option ElevatorData
  ladder_data : Option Int
  exit_grid_data : Option ExitGridData

/-- An empty payload with a given inventory header and updated-flags word. -/
def ProtoUpdate.base (il ic fl : Int) : ProtoUpdate :=
  ⟨il, ic, none, fl, none, none, none, none, none, none, none, none, none⟩

/-- `MapParser._read_proto_update_data`: the inventory header (length,
capacity, ignored pointer), then exactly one type-specific payload selected
by the PID's high-byte type tag (Item 0, Critter 1, Scenery 2, Misc 5) and,
for items and scenery, the externally supplied subtype of the PID
(Weapon 3, Ammo 4, MiscItem 5, Key 6; Door 0, Stairs 1, Elevator 2,
LadderUp 3, LadderDown 4); anything else reads nothing further. -/
def read_proto_update_data (P : MapParser) (data : Bytes) (pid : Int) : PRead ProtoUpdate := do
  let il ← rdI32 data
  let ic ← rdI32 data
  let _items_ptr ← rdI32 data
  let t := highByteI pid
  if t = 1 then do
    -- critter
    let reaction ← rdI32 data
    let damage_last_turn ← rdI32 data
    let maneuver ← rdI32 data
    let ap ← rdI32 data
    let results ← rdI32 data
    let ai_packet ← rdI32 data
    let team ← rdI32 data
    let who_hit_me_cid ← rdI32 data
    let hp ← rdI32 data
    let radiation ← rdI32 data
    let poison ← rdI32 data
    pure { ProtoUpdate.base il ic 0 with
      critter_data := some ⟨reaction,
        ⟨damage_last_turn, maneuver, ap, results, ai_packet, team, who_hit_me_cid⟩,
        hp, radiation, poison⟩ }
  else do
    let fl ← rdI32 data
    if t = 0 then
      -- item, by external subtype
      match dictGet P.proto_item_types pid with
      | some 3 => do
        let q ← rdI32 data
        let a ← rdI32 data
        pure { ProtoUpdate.base il ic fl with weapon_data := some ⟨q, a⟩ }
      | some 4 => do
        let q ← rdI32 data
        pure { ProtoUpdate.base il ic fl with ammo_data := some q }
      | some 5 => do
        let c ← rdI32 data
        pure { ProtoUpdate.base il ic fl with misc_item_data := some c }
      | some 6 => do
        let k ← rdI32 data
        pure { ProtoUpdate.base il ic fl with key_data := some k }
      | _ => pure (ProtoUpdate.base il ic fl)
    else if t = 2 then
      -- scenery, by external subtype
      match dictGet P.proto_scenery_types pid with
      | some 0 => do
        let w ← rdI32 data
        pure { ProtoUpdate.base il ic fl with door_data := some w }
      | some 1 => do
        let m ← rdI32 data
        let bt ← rdI32 data
        pure { ProtoUpdate.base il ic fl with stairs_data := some ⟨m, bt⟩ }
      | some 2 => do
        let ty ← rdI32 data
        let lv ← rdI32 data
        pure { ProtoUpdate.base il ic fl with elevator_data := some ⟨ty, lv⟩ }
      | some 3 => do
        let bt ← rdI32 data
        pure { ProtoUpdate.base il ic fl with ladder_data := some bt }
      | some 4 => do
        let bt ← rdI32 data
        pure { ProtoUpdate.base il ic fl with ladder_data := some bt }
      | _ => pure (ProtoUpdate.base il ic fl)
    else if t = 5 then
      -- misc: exit grids occupy PIDs 0x5000010 .. 0x5000017
      if 0x5000010 ≤ pid ∧ pid ≤ 0x5000017 then do
        let m ← rdI32 data
        let ti ← rdI32 data
        let el ← rdI32 data
        let ro ← rdI32 data
        pure { ProtoUpdate.base il ic fl with exit_grid_data := some ⟨m, ti, el, ro⟩ }
      else pure (ProtoUpdate.base il ic fl)
    else pure (ProtoUpdate.base il ic fl)

/-- The inventory loop of `_read_object`: `count` repetitions of a quantity
word (whose failed read propagates to the enclosing object's handler)
followed by a recursively parsed child object; a child that fails to parse
(`none`) is skipped but the loop continues. -/
def inv_loop (data : Bytes) (child : Nat → Option MapObject × Nat) :
    (count : Nat) → PRead (List (Int × MapObject))
  | 0 => pure []
  | n + 1 => fun off =>
    match rdI32 data off with
    | .error e => .error e
    | .ok (q, off1) =>
      let c := child off1
      match inv_loop data child n c.2 with
      | .error e => .error e
      | .ok (rest, off2) =>
        .ok ((match c.1 with
          | some it => (q, it) :: rest
          | none => rest), off2)

/-- `MapParser._read_object`: eighteen base words, the elevation field
overridden by the elevation-loop index, the proto-update payload, then the
recursive inventory.  Any `struct.error` inside is caught here: the object
is dropped (`none`) and the reader is left at the failure offset.  The fuel
bounds the recursion depth; each nested object consumes at least 84 bytes
before recursing, so `data.length + 1` always suffices. -/
def read_object (P : MapParser) (data : Bytes) :
    (fuel : Nat) → (elevation : Int) → Nat → Option MapObject × Nat
  | 0, _, off => (none, off)
  | fuel + 1, elevation, off =>
    let m : PRead MapObject := do
      let oid ← rdI32 data
      let tile ← rdI32 data
      let x ← rdI32 data
      let y ← rdI32 data
      let sx ← rdI32 data
      let sy ← rdI32 data
      let frame ← rdI32 data
      let rotation ← rdI32 data
      let fid ← rdI32 data
      let fl ← rdI32 data
      let _elev_on_disk ← rdI32 data
      let pid ← rdI32 data
      let cid ← rdI32 data
      let light_distance ← rdI32 data
      let light_intensity ← rdI32 data
      let _field_74 ← rdI32 data
      let sid ← rdI32 data
      let mli ← rdI32 data
      let pu ← read_proto_update_data P data pid
      let inv ←
        if pu.inventory_length > 0 then
          inv_loop data (read_object P data fuel elevation) pu.inventory_length.toNat
        else pure []
      pure (.mk oid tile x y sx sy frame rotation fid fl elevation pid cid
        light_distance light_intensity sid mli pu.inventory_length pu.inventory_capacity inv
        pu.critter_data pu.item_flags pu.weapon_data pu.ammo_data pu.misc_item_data
        pu.key_data pu.door_data pu.stairs_data pu.elevator_data pu.ladder_data
        pu.exit_grid_data)
    match m off with
    | .error e => (none, e)
    | .ok (obj, off') => (some obj, off')

/-- The `for _ in range(elev_count)` loop: objects that fail to parse are
skipped, the rest collected in order. -/
def read_objects_at_elev (P : MapParser) (data : Bytes) (elevation : Int) :
    (count : Nat) → Nat → List MapObject × Nat
  | 0, off => ([], off)
  | n + 1, off =>
    let r := read_object P data (data.length + 1) elevation off
    let rest := read_objects_at_elev P data elevation n r.2
    ((match r.1 with
      | some o => o :: rest.1
      | none => rest.1), rest.2)

/-- The per-elevation loop of `_read_map_data`'s objects part: a count word
per elevation (whose failure is caught by the enclosing handler, keeping
earlier elevations), a sanity check that breaks the loop, then that many
object records. -/
def read_elev_loop (P : MapParser) (data : Bytes) (total : Int) :
    (elevs : List Nat) → Nat → List (Nat × List MapObject)
  | [], _ => []
  | e :: es, off =>
    match rdI32 data off with
    | .error _ => []
    | .ok (elev_count, off1) =>
      if elev_count < 0 ∨ elev_count > total then []
      else
        let r := read_objects_at_elev P data (e : Int) elev_count.toNat off1
        (e, r.1) :: read_elev_loop P data total es r.2

/-- The objects section: a total count with a sanity ceiling of 50000, then
the three elevations. -/
def read_objects_section (P : MapParser) (data : Bytes) (off : Nat) :
    List (Nat × List MapObject) :=
  match rdI32 data off with
  | .error _ => []
  | .ok (total, off1) =>
    if total < 0 ∨ total > 50000 then []
    else read_elev_loop P data total [0, 1, 2] off1

/-- A parsed `Map`. -/
structure Map where
  header : MapHeader
  objects : List MapObject
  objects_by_elevation : List (Nat × List MapObject)
  scripts : List MapScript
  scripts_by_type : List (List MapScript)

/-- Pad the processed elevations with the unprocessed ones (the Python dict
is pre-seeded with keys 0, 1 and 2 and empty lists). -/
def padElevs (l : List (Nat × List MapObject)) : List (Nat × List MapObject) :=
  l ++ (([0, 1, 2].drop l.length).map (fun e => (e, [])))

/-- `MapParser.parse` composed with `_read_map_data`: an unguarded header
read (which is the only way the map deserializer can raise), then the
offset arithmetic skipping global variables, local variables and the tile
planes of elevations whose "empty" flag bit (2, 4, 8) is clear, then the
scripts section, then (unless the scripts section aborted) the objects
section. -/
def parse (P : MapParser) (data : Bytes) : Except Nat Map :=
  match read_header data 0 with
  | .error e => .error e
  | .ok (header, _) =>
    let off0 := 236
    let off1 := if header.global_variables_count > 0 then
        off0 + (header.global_variables_count * 4).toNat else off0
    let off2 := if header.local_variables_count > 0 then
        off1 + (header.local_variables_count * 4).toNat else off1
    let off3 := [2, 4, 8].foldl
      (fun o f => if pyAnd32 header.flags f = 0 then o + 10000 * 4 else o) off2
    let sc := read_scripts_section data off3
    match sc.2.2 with
    | none => .ok ⟨header, [], padElevs [], sc.1, sc.2.1⟩
    | some off4 =>
      let obys := read_objects_section P data off4
      .ok ⟨header, (obys.map Prod.snd).flatten, padElevs obys, sc.1, sc.2.1⟩

end FMap

/-! ## Concrete archives used as test inputs -/

/-- A one-entry archive whose entry `D\\F` is flagged `0x10` (LZSS) with
`packed_size = 2`, `unpacked_size = 5`; its two stored bytes decode to a
single literal byte `A`. -/
def c1dat : Bytes :=
  [0,0,0,1, 0,0,0,0, 0,0,0,0, 0,0,0,0] ++ [1,68] ++
  [0,0,0,1, 0,0,0,0, 0,0,0,16, 0,0,0,0] ++ [1,70] ++
  [0,0,0,16] ++ [0,0,0,52] ++ [0,0,0,5] ++ [0,0,0,2] ++ [1,65]

/-- A one-entry archive whose entry is flagged `0x50` (unknown high nibble),
with two stored payload bytes. -/
def c10dat : Bytes :=
  [0,0,0,1, 0,0,0,0, 0,0,0,0, 0,0,0,0] ++ [1,68] ++
  [0,0,0,1, 0,0,0,0, 0,0,0,16, 0,0,0,0] ++ [1,70] ++
  [0,0,0,80] ++ [0,0,0,52] ++ [0,0,0,5] ++ [0,0,0,2] ++ [9,9]

/-- A one-entry archive whose directory name `A/B` contains a forward slash,
so the stored path is `A/B\\C`. -/
def c9dat : Bytes :=
  [0,0,0,1, 0,0,0,0, 0,0,0,0, 0,0,0,0] ++ [3,65,47,66] ++
  [0,0,0,1, 0,0,0,0, 0,0,0,16, 0,0,0,0] ++ [1,67] ++
  [0,0,0,32] ++ [0,0,0,54] ++ [0,0,0,2] ++ [0,0,0,2] ++ [7,8]

/-- A one-entry archive storing `Dir\\Foo.msg` as a raw entry. -/
def c9wdat : Bytes :=
  [0,0,0,1, 0,0,0,0, 0,0,0,0, 0,0,0,0] ++ [3,68,105,114] ++
  [0,0,0,1, 0,0,0,0, 0,0,0,16, 0,0,0,0] ++ [7,70,111,111,46,109,115,103] ++
  [0,0,0,32] ++ [0,0,0,60] ++ [0,0,0,2] ++ [0,0,0,2] ++ [7,8]

/-- A minimal script module: two PUSH instructions in the bootstrap region
(`0xC001` int-flagged and `0xA001` float-flagged, both with payload
`0x3F800000`), an empty procedure table and empty string tables. -/
def c6dat : Bytes := [192,1,63,128,0,0, 160,1,63,128,0,0] ++ List.replicate 30 0 ++ [0,0,0,0]

/-- The parse of `c6dat`. -/
def c6script : Script.ScriptS := ⟨c6dat, [], 46, 0, 50, 0, 46⟩

/-- A minimal script module with an empty procedure table and an 8-byte
identifiers block holding `AB\0CD\0\0\0`; the identifiers length field sits
at offset 46, the identifier bytes start at offset 50. -/
def c7dat : Bytes := List.replicate 42 0 ++ [0,0,0,0] ++ [0,0,0,8] ++ [65,66,0,67,68,0,0,0]

/-- The parse of `c7dat`. -/
def c7script : Script.ScriptS := ⟨c7dat, [], 46, 8, 58, 0, 58⟩

/-- A 72-byte buffer holding one Spatial-tagged script slot (`scr_id`
high byte 1), all other words zero. -/
def c5spatial : Bytes := [1,0,0,0] ++ List.replicate 68 0

/-- A 68-byte buffer holding one Timed-tagged script slot (high byte 2). -/
def c5timed : Bytes := [2,0,0,0] ++ List.replicate 64 0

/-- A 64-byte buffer holding one System-tagged script slot (high byte 0). -/
def c5system : Bytes := List.replicate 64 0

/-- An int32 value in signed 32-bit range. -/
def int32Ok (v : Int) : Prop := -2147483648 ≤ v ∧ v < 2147483648

instance : DecidablePred int32Ok := fun v =>
  inferInstanceAs (Decidable (-2147483648 ≤ v ∧ v < 2147483648))

/-- A "simple" placed map object for constructing test map files: a Misc
object (PID type tag 5) outside the exit-grid PID range, with an empty
inventory, so its record is exactly 22 int32 words (88 bytes): the eighteen
base words, the three inventory-header words and the updated-flags word. -/
structure SimpleObj where
  oid : Int
  tile : Int
  x : Int
  y : Int
  sx : Int
  sy : Int
  frame : Int
  rota : Int
  fid : Int
  flags : Int
  eldisk : Int
  pidLow : Int
  cid : Int
  light_distance : Int
  light_intensity : Int
  f74 : Int
  sid : Int
  mli : Int
  ic : Int
  ptr : Int
  ifl : Int

/-- All words of the record are in int32 range, the PID low bits fit below
the type tag, and the PID avoids the exit-grid range `0x5000010..0x5000017`
(low bits 16–23). -/
def SimpleObj.WF (o : SimpleObj) : Prop :=
  int32Ok o.oid ∧ int32Ok o.tile ∧ int32Ok o.x ∧ int32Ok o.y ∧ int32Ok o.sx ∧
  int32Ok o.sy ∧ int32Ok o.frame ∧ int32Ok o.rota ∧ int32Ok o.fid ∧ int32Ok o.flags ∧
  int32Ok o.eldisk ∧ (0 ≤ o.pidLow ∧ o.pidLow < 16777216 ∧ (o.pidLow < 16 ∨ 23 < o.pidLow)) ∧
  int32Ok o.cid ∧ int32Ok o.light_distance ∧ int32Ok o.light_intensity ∧ int32Ok o.f74 ∧
  int32Ok o.sid ∧ int32Ok o.mli ∧ int32Ok o.ic ∧ int32Ok o.ptr ∧ int32Ok o.ifl

instance (o : SimpleObj) : Decidable o.WF :=
  inferInstanceAs (Decidable (_ ∧ _))

/-- The 88-byte on-disk record of a simple object: 22 big-endian int32
words in the order `_read_object` reads them (the inventory length is 0). -/
def SimpleObj.enc (o : SimpleObj) : Bytes :=
  enc32i o.oid ++ enc32i o.tile ++ enc32i o.x ++ enc32i o.y ++ enc32i o.sx ++
  enc32i o.sy ++ enc32i o.frame ++ enc32i o.rota ++ enc32i o.fid ++ enc32i o.flags ++
  enc32i o.eldisk ++ enc32i (83886080 + o.pidLow) ++ enc32i o.cid ++
  enc32i o.light_distance ++ enc32i o.light_intensity ++ enc32i o.f74 ++ enc32i o.sid ++
  enc32i o.mli ++ enc32i 0 ++ enc32i o.ic ++ enc32i o.ptr ++ enc32i o.ifl

/-- The `MapObject` that `_read_object` builds from a simple object's record
at a given elevation. -/
def SimpleObj.toObj (o : SimpleObj) (elev : Int) : FMap.MapObject :=
  .mk o.oid o.tile o.x o.y o.sx o.sy o.frame o.rota o.fid o.flags elev
    (83886080 + o.pidLow) o.cid o.light_distance o.light_intensity o.sid o.mli
    0 o.ic [] none o.ifl none none none none none none none none none

/-- The fixed 236-byte header record of the C4 test map: version 20, blank
name, zero variable counts, flags `14` (bits 2, 4 and 8 set, so no tile
plane is stored for any elevation), map id 77. -/
def c4hdr : Bytes :=
  enc32i 20 ++ List.replicate 16 0 ++ enc32i 0 ++ enc32i 0 ++ enc32i 0 ++ enc32i 0 ++
  enc32i (-1) ++ enc32i 14 ++ enc32i 0 ++ enc32i 0 ++ enc32i 77 ++ enc32i 0 ++
  List.replicate 176 0

/-- The parsed form of `c4hdr`. -/
def c4header : FMap.MapHeader := ⟨20, [], 0, 0, 0, 0, -1, 14, 0, 0, 77, 0⟩

/-- The 264-byte object-independent prefix of the C4 test map: the header,
five zero script-bucket counts, the total object count 5 and the
elevation-0 object count 5. -/
def c4pre : Bytes :=
  c4hdr ++ enc32i 0 ++ enc32i 0 ++ enc32i 0 ++ enc32i 0 ++ enc32i 0 ++ enc32i 5 ++ enc32i 5

/-- A complete well-formed map file with five placed objects on elevation 0
and zero object counts for elevations 1 and 2 (712 bytes in all; the
objects occupy bytes 264–703). -/
def c4map (o1 o2 o3 o4 o5 : SimpleObj) : Bytes :=
  c4pre ++ o1.enc ++ o2.enc ++ o3.enc ++ o4.enc ++ o5.enc ++ enc32i 0 ++ enc32i 0

/-- A concrete simple object with a given id word. -/
def c4obj (k : Int) : SimpleObj := ⟨k, 7, 1, 2, 3, 4, 0, 5, 33, 0, 0, 12, -1, 8, 65536, 0, -1, -1, 0, 0, 0⟩

/-! ## Correctness of the byte-level decoder against the token semantics -/

namespace LZSS

theorem and_one_shift_ne (flags bit : Nat) :
    (flags &&& (1 <<< bit) ≠ 0) ↔ flags.testBit bit = true := by
  rw [Nat.shiftLeft_eq, one_mul, Nat.and_two_pow]
  cases h : flags.testBit bit
  · simp [h]
  · simp [h]

theorem flagsOf_testBit :
    ∀ (g : List Token) (i : Nat) (h : i < g.length),
      (flagsOf g).testBit i = (g.get ⟨i, h⟩).isLit
  | t :: g', 0, _ => by
    rw [Nat.testBit_zero]
    cases ht : t.isLit
    · simp [flagsOf, ht, Nat.add_mul_mod_self_left]
    · simp [flagsOf, ht, Nat.add_mul_mod_self_left]
  | t :: g', i + 1, h => by
    rw [Nat.testBit_succ]
    have h' : i < g'.length := by simpa using Nat.lt_of_succ_lt_succ h
    have : ((if t.isLit then 1 else 0) + 2 * flagsOf g') / 2 = flagsOf g' := by
      cases t.isLit
      · simp
      · simp
        omega
    simp only [flagsOf, this]
    exact flagsOf_testBit g' i h'

theorem nibblePack : ∀ hi < 16, ∀ lo < 16,
    ((hi * 16 + lo) &&& 240 = hi * 16) ∧ ((hi * 16 + lo) &&& 15 = lo) := by decide

theorem lorLowHigh : ∀ lo < 256, ∀ hi < 16, lo ||| hi * 256 = lo + hi * 256 := by decide

/-- Decoding the two encoded bytes of a well-formed reference token recovers
its offset and length. -/
theorem refEnc_decode (off len : Nat) (hoff : off < 4096) (h3 : 3 ≤ len) (h18 : len ≤ 18) :
    (off % 256 ||| ((off / 256 * 16 + (len - 3)) &&& 240) <<< 4 = off) ∧
      ((off / 256 * 16 + (len - 3)) &&& 15) + 3 = len := by
  have hhi : off / 256 < 16 := by omega
  have hlo : len - 3 < 16 := by omega
  obtain ⟨h1, h2⟩ := nibblePack (off / 256) hhi (len - 3) hlo
  constructor
  · rw [h1, Nat.shiftLeft_eq]
    have : off / 256 * 16 * 2 ^ 4 = off / 256 * 256 := by ring
    rw [this, lorLowHigh (off % 256) (Nat.mod_lt _ (by norm_num)) (off / 256) hhi]
    omega
  · rw [h2]; omega

theorem copyRef_length (off : Nat) : ∀ (n : Nat) (s : State), (copyRef s off n).1.length = n := by
  intro n
  induction n generalizing off with
  | zero => intro s; rfl
  | succ k ih => intro s; simp [copyRef, ih (off + 1)]

theorem runTokens_append (a b : List Token) (s : State) :
    runTokens s (a ++ b) =
      ((runTokens s a).1 ++ (runTokens (runTokens s a).2 b).1,
        (runTokens (runTokens s a).2 b).2) := by
  induction a generalizing s with
  | nil => simp [runTokens]
  | cons t a' ih => simp [runTokens, ih]

theorem runTokens_outLen (ts : List Token) : ∀ s, (runTokens s ts).1.length = tokensOutLen ts := by
  induction ts with
  | nil => intro s; rfl
  | cons t ts' ih =>
    intro s
    cases t with
    | lit b =>
      simp [runTokens, runToken, tokensOutLen, Token.outLen, ih]
      omega
    | ref off len =>
      simp [runTokens, runToken, tokensOutLen, Token.outLen, copyRef_length, ih]

theorem runTokens_litMap (bs : List Nat) : ∀ s,
    runTokens s (bs.map Token.lit) = (bs, update_ring_buffer s bs) := by
  induction bs with
  | nil => intro s; rfl
  | cons b bs' ih => intro s; simp [runTokens, runToken, update_ring_buffer, ih,
      List.foldl_cons]

theorem encToks_cons (t : Token) (g : List Token) :
    encToks (t :: g) = t.enc ++ encToks g := by simp [encToks]

theorem encodeTokensF_nil : ∀ fuel, encodeTokensF fuel [] = []
  | 0 => rfl
  | _ + 1 => rfl

theorem encodeTokensF_congr : ∀ (fuel fuel' : Nat) (ts : List Token),
    ts.length ≤ fuel → ts.length ≤ fuel' →
    encodeTokensF fuel ts = encodeTokensF fuel' ts
  | 0, fuel', ts, h, _ => by
    have : ts = [] := List.length_eq_zero.mp (Nat.le_zero.mp h)
    subst this; rw [encodeTokensF_nil, encodeTokensF_nil]
  | fuel + 1, fuel', [], _, _ => by rw [encodeTokensF_nil, encodeTokensF_nil]
  | fuel + 1, 0, t :: ts, h, h' => by simp at h'
  | fuel + 1, fuel' + 1, t :: ts, h, h' => by
    simp only [encodeTokensF]
    rw [encodeTokensF_congr fuel fuel' ((t :: ts).drop 8)
      (by simp only [List.length_drop, List.length_cons] at h ⊢; omega)
      (by simp only [List.length_drop, List.length_cons] at h' ⊢; omega)]

theorem encodeTokens_cons (t : Token) (ts : List Token) :
    encodeTokens (t :: ts) =
      encGroup ((t :: ts).take 8) ++ encodeTokens ((t :: ts).drop 8) := by
  show encodeTokensF (ts.length + 1) (t :: ts) = _
  simp only [encodeTokensF, encodeTokens]
  rw [encodeTokensF_congr ts.length ((t :: ts).drop 8).length ((t :: ts).drop 8)
    (by simp only [List.length_drop, List.length_cons]; omega) le_rfl]

theorem length_le_encodeTokens_length : ∀ (n : Nat) (ts : List Token), ts.length ≤ n →
    ts.length ≤ (encodeTokens ts).length
  | 0, ts, h => by
    have : ts = [] := List.length_eq_zero.mp (Nat.le_zero.mp h)
    simp [this]
  | n + 1, [], _ => by simp
  | n + 1, t :: ts, h => by
    rw [encodeTokens_cons]
    have h1 : ((t :: ts).drop 8).length ≤ n := by simp at h ⊢; omega
    have h2 := length_le_encodeTokens_length n ((t :: ts).drop 8) h1
    have h3 : ((t :: ts).take 8).length ≤ (encGroup ((t :: ts).take 8)).length := by
      have : ∀ g : List Token, (encToks g).length ≥ g.length := by
        intro g
        induction g with
        | nil => simp [encToks]
        | cons u g' ihg =>
          rw [encToks_cons]
          have : u.enc.length ≥ 1 := by cases u <;> simp [Token.enc]
          simp only [List.length_append, List.length_cons]
          omega
      simp only [encGroup, List.length_cons]
      have := this ((t :: ts).take 8)
      omega
    simp only [List.length_append]
    simp only [List.length_take, List.length_drop] at *
    omega

/-- The bit loop of the one-shot decoder, run on the encoding of a token
group followed by arbitrary further input, consumes exactly the group's
bytes and budget and produces the group's token semantics. -/
theorem decodeBits_encToks :
    ∀ (g : List Token) (s : State) (flags bit : Nat) (rest : List Nat) (rrem : Nat),
      bit + g.length ≤ 8 →
      (∀ t ∈ g, t.WF) →
      (∀ i (h : i < g.length), flags.testBit (bit + i) = (g.get ⟨i, h⟩).isLit) →
      (rrem = 0 ∨ bit + g.length = 8) →
      decodeBits s flags bit (8 - bit) (encToks g ++ rest) ((encToks g).length + rrem) =
        ⟨(runTokens s g).1, (runTokens s g).2, rest, rrem⟩
  | [], s, flags, bit, rest, rrem, hlen, hwf, hbits, hend => by
    simp only [encToks, List.map_nil, List.flatten_nil, List.nil_append, List.length_nil,
      Nat.zero_add, runTokens]
    by_cases hb : bit < 8
    · have hr : rrem = 0 := by
        rcases hend with h | h
        · exact h
        · simp only [List.length_nil, Nat.add_zero] at h
          omega
      have hk : 8 - bit = (8 - (bit + 1)) + 1 := by omega
      rw [hk, hr]
      cases rest with
      | nil => simp [decodeBits]
      | cons b r => simp [decodeBits]
    · have hk : 8 - bit = 0 := by omega
      rw [hk]
      rfl
  | t :: g', s, flags, bit, rest, rrem, hlen, hwf, hbits, hend => by
    have hbit : bit < 8 := by simp only [List.length_cons] at hlen; omega
    have hk : 8 - bit = (8 - (bit + 1)) + 1 := by omega
    have hbit0 : flags.testBit bit = t.isLit := by
      have := hbits 0 (by simp)
      simpa using this
    have hbits' : ∀ i (h : i < g'.length),
        flags.testBit ((bit + 1) + i) = (g'.get ⟨i, h⟩).isLit := by
      intro i h
      have := hbits (i + 1) (by simp only [List.length_cons]; omega)
      rw [show bit + (i + 1) = bit + 1 + i by omega] at this
      simpa using this
    have hlen' : (bit + 1) + g'.length ≤ 8 := by
      simp only [List.length_cons] at hlen; omega
    have hwf' : ∀ u ∈ g', u.WF := fun u hu => hwf u (List.mem_cons_of_mem _ hu)
    have hend' : rrem = 0 ∨ (bit + 1) + g'.length = 8 := by
      rcases hend with h | h
      · exact Or.inl h
      · exact Or.inr (by simp only [List.length_cons] at h; omega)
    cases t with
    | lit b =>
      rw [encToks_cons]
      simp only [Token.enc, List.singleton_append, List.cons_append, List.nil_append,
        List.length_cons]
      rw [hk]
      have hne : (encToks g' ++ rest).length.succ ≠ 0 := Nat.succ_ne_zero _
      simp only [decodeBits]
      have hfl : flags &&& (1 <<< bit) ≠ 0 :=
        (and_one_shift_ne flags bit).mpr (by rw [hbit0]; rfl)
      have hrem : ((encToks g').length + 1 + rrem) ≠ 0 := by omega
      rw [if_neg (by omega : ¬((encToks g').length + 1 + rrem = 0)), if_pos hfl]
      have hsub : (encToks g').length + 1 + rrem - 1 = (encToks g').length + rrem := by omega
      rw [hsub, decodeBits_encToks g' (writeByte s b) flags (bit + 1) rest rrem
        hlen' hwf' hbits' hend']
      simp [runTokens, runToken]
    | ref off len =>
      have hwt : (Token.ref off len).WF := hwf _ (List.mem_cons_self _ _)
      simp only [Token.WF] at hwt
      obtain ⟨hoff, h3, h18⟩ := hwt
      obtain ⟨hdec1, hdec2⟩ := refEnc_decode off len hoff h3 h18
      rw [encToks_cons]
      simp only [Token.enc, List.cons_append, List.nil_append, List.length_cons]
      rw [hk]
      simp only [decodeBits]
      have hfl : ¬(flags &&& (1 <<< bit) ≠ 0) := by
        simp only [ne_eq, not_not]
        have : flags.testBit bit = false := by rw [hbit0]; rfl
        rw [Nat.shiftLeft_eq, one_mul, Nat.and_two_pow, this]
        simp
      rw [if_neg (by omega : ¬((encToks g').length + 1 + 1 + rrem = 0)), if_neg hfl,
        if_neg (by omega : ¬((encToks g').length + 1 + 1 + rrem < 2))]
      rw [hdec1, hdec2]
      have hsub : (encToks g').length + 1 + 1 + rrem - 2 = (encToks g').length + rrem := by
        omega
      rw [hsub, decodeBits_encToks g' (copyRef s off len).2 flags (bit + 1) rest rrem
        hlen' hwf' hbits' hend']
      simp [runTokens, runToken]

/-- The outer loop of the one-shot decoder on a fully encoded token stream
followed by arbitrary extra input: with budget exactly the encoded length
it consumes exactly the encoded bytes and produces the token semantics. -/
theorem decodeLoop_enc : ∀ (n : Nat) (ts : List Token), ts.length ≤ n →
    ∀ (s : State) (rest : List Nat) (fuel : Nat), ts.length ≤ fuel →
    (∀ t ∈ ts, t.WF) →
    decodeLoop fuel s (encodeTokens ts ++ rest) (encodeTokens ts).length =
      ⟨(runTokens s ts).1, (runTokens s ts).2, rest, 0⟩
  | _, [], _, s, rest, fuel, _, _ => by
    cases fuel with
    | zero => rfl
    | succ f => simp [decodeLoop, encodeTokens, encodeTokensF, runTokens]
  | 0, t :: ts0, hn, _, _, _, _, _ => by simp at hn
  | n + 1, t :: ts0, hn, s, rest, fuel, hfuel, hwf => by
    cases fuel with
    | zero => simp at hfuel
    | succ f =>
      rw [encodeTokens_cons]
      have hsplit : (t :: ts0).take 8 ++ (t :: ts0).drop 8 = t :: ts0 :=
        List.take_append_drop 8 (t :: ts0)
      have hwfg : ∀ u ∈ (t :: ts0).take 8, u.WF :=
        fun u hu => hwf u (List.take_subset 8 _ hu)
      have hwfd : ∀ u ∈ (t :: ts0).drop 8, u.WF :=
        fun u hu => hwf u (List.drop_subset 8 _ hu)
      have hend : (encodeTokens ((t :: ts0).drop 8)).length = 0 ∨
          0 + ((t :: ts0).take 8).length = 8 := by
        by_cases h8 : (t :: ts0).length ≤ 8
        · left
          rw [List.drop_eq_nil_of_le h8]
          rfl
        · right
          simp only [List.length_take, Nat.zero_add]
          omega
      have hbits : ∀ i (h : i < ((t :: ts0).take 8).length),
          (flagsOf ((t :: ts0).take 8)).testBit (0 + i) =
            (((t :: ts0).take 8).get ⟨i, h⟩).isLit := by
        intro i h
        rw [Nat.zero_add]
        exact flagsOf_testBit _ i h
      have H1 := decodeBits_encToks ((t :: ts0).take 8) s (flagsOf ((t :: ts0).take 8)) 0
        (encodeTokens ((t :: ts0).drop 8) ++ rest) (encodeTokens ((t :: ts0).drop 8)).length
        (by simp only [List.length_take, Nat.zero_add]; omega) hwfg hbits hend
      rw [Nat.sub_zero] at H1
      have hinp : (encGroup ((t :: ts0).take 8) ++ encodeTokens ((t :: ts0).drop 8)) ++ rest =
          flagsOf ((t :: ts0).take 8) ::
            (encToks ((t :: ts0).take 8) ++ (encodeTokens ((t :: ts0).drop 8) ++ rest)) := by
        simp [encGroup, List.append_assoc]
      have hlen2 : (encGroup ((t :: ts0).take 8) ++ encodeTokens ((t :: ts0).drop 8)).length =
          ((encToks ((t :: ts0).take 8)).length +
            (encodeTokens ((t :: ts0).drop 8)).length) + 1 := by
        simp only [encGroup, List.length_append, List.length_cons]
        omega
      rw [hinp, hlen2]
      simp only [decodeLoop]
      rw [if_neg (by omega :
        ¬((encToks ((t :: ts0).take 8)).length + (encodeTokens ((t :: ts0).drop 8)).length + 1
          = 0))]
      have hsub : (encToks ((t :: ts0).take 8)).length +
          (encodeTokens ((t :: ts0).drop 8)).length + 1 - 1 =
          (encToks ((t :: ts0).take 8)).length + (encodeTokens ((t :: ts0).drop 8)).length := by
        omega
      rw [hsub, H1]
      have H2 := decodeLoop_enc n ((t :: ts0).drop 8)
        (by simp only [List.length_drop, List.length_cons] at hn ⊢; omega)
        (runTokens s ((t :: ts0).take 8)).2 rest f
        (by simp only [List.length_drop, List.length_cons] at hfuel ⊢; omega) hwfd
      simp only [H2]
      have hrt := runTokens_append ((t :: ts0).take 8) ((t :: ts0).drop 8) s
      rw [hsplit] at hrt
      rw [hrt]

/-- One-shot decode of a fully encoded token stream, with budget equal to its
encoded length, yields exactly the token semantics from the reset state. -/
theorem decode_encodeTokens (ts : List Token) (hwf : ∀ t ∈ ts, t.WF) :
    decode (encodeTokens ts) (encodeTokens ts).length = (runTokens resetState ts).1 := by
  have h := decodeLoop_enc ts.length ts le_rfl resetState [] (encodeTokens ts).length
    (length_le_encodeTokens_length ts.length ts le_rfl) hwf
  rw [List.append_nil] at h
  rw [decode, h]

/-- `decompress` of a fully encoded token stream yields the token semantics. -/
theorem decompress_encodeTokens (ts : List Token) (hwf : ∀ t ∈ ts, t.WF) :
    decompress (encodeTokens ts) = (runTokens resetState ts).1 :=
  decode_encodeTokens ts hwf

/-- Stream-decoder counterpart of `decodeBits_encToks`. -/
theorem decodeBitsS_encToks :
    ∀ (g : List Token) (s : State) (flags bit : Nat) (rest : List Nat) (rrem : Nat),
      bit + g.length ≤ 8 →
      (∀ t ∈ g, t.WF) →
      (∀ i (h : i < g.length), flags.testBit (bit + i) = (g.get ⟨i, h⟩).isLit) →
      (rrem = 0 ∨ bit + g.length = 8) →
      decodeBitsS s flags bit (8 - bit) (encToks g ++ rest) ((encToks g).length + rrem) =
        ⟨(runTokens s g).1, (runTokens s g).2, rest, rrem⟩
  | [], s, flags, bit, rest, rrem, hlen, hwf, hbits, hend => by
    simp only [encToks, List.map_nil, List.flatten_nil, List.nil_append, List.length_nil,
      Nat.zero_add, runTokens]
    by_cases hb : bit < 8
    · have hr : rrem = 0 := by
        rcases hend with h | h
        · exact h
        · simp only [List.length_nil, Nat.add_zero] at h
          omega
      have hk : 8 - bit = (8 - (bit + 1)) + 1 := by omega
      rw [hk, hr]
      simp [decodeBitsS]
    · have hk : 8 - bit = 0 := by omega
      rw [hk]
      rfl
  | t :: g', s, flags, bit, rest, rrem, hlen, hwf, hbits, hend => by
    have hbit : bit < 8 := by simp only [List.length_cons] at hlen; omega
    have hk : 8 - bit = (8 - (bit + 1)) + 1 := by omega
    have hbit0 : flags.testBit bit = t.isLit := by
      have := hbits 0 (by simp)
      simpa using this
    have hbits' : ∀ i (h : i < g'.length),
        flags.testBit ((bit + 1) + i) = (g'.get ⟨i, h⟩).isLit := by
      intro i h
      have := hbits (i + 1) (by simp only [List.length_cons]; omega)
      rw [show bit + (i + 1) = bit + 1 + i by omega] at this
      simpa using this
    have hlen' : (bit + 1) + g'.length ≤ 8 := by
      simp only [List.length_cons] at hlen; omega
    have hwf' : ∀ u ∈ g', u.WF := fun u hu => hwf u (List.mem_cons_of_mem _ hu)
    have hend' : rrem = 0 ∨ (bit + 1) + g'.length = 8 := by
      rcases hend with h | h
      · exact Or.inl h
      · exact Or.inr (by simp only [List.length_cons] at h; omega)
    cases t with
    | lit b =>
      rw [encToks_cons]
      simp only [Token.enc, List.singleton_append, List.cons_append, List.nil_append,
        List.length_cons]
      rw [hk]
      simp only [decodeBitsS]
      have hfl : flags &&& (1 <<< bit) ≠ 0 :=
        (and_one_shift_ne flags bit).mpr (by rw [hbit0]; rfl)
      rw [if_neg (by omega : ¬((encToks g').length + 1 + rrem = 0)), if_pos hfl]
      have hsub : (encToks g').length + 1 + rrem - 1 = (encToks g').length + rrem := by omega
      rw [hsub, decodeBitsS_encToks g' (writeByte s b) flags (bit + 1) rest rrem
        hlen' hwf' hbits' hend']
      simp [runTokens, runToken]
    | ref off len =>
      have hwt : (Token.ref off len).WF := hwf _ (List.mem_cons_self _ _)
      simp only [Token.WF] at hwt
      obtain ⟨hoff, h3, h18⟩ := hwt
      obtain ⟨hdec1, hdec2⟩ := refEnc_decode off len hoff h3 h18
      rw [encToks_cons]
      simp only [Token.enc, List.cons_append, List.nil_append, List.length_cons]
      rw [hk]
      simp only [decodeBitsS]
      have hfl : ¬(flags &&& (1 <<< bit) ≠ 0) := by
        simp only [ne_eq, not_not]
        have : flags.testBit bit = false := by rw [hbit0]; rfl
        rw [Nat.shiftLeft_eq, one_mul, Nat.and_two_pow, this]
        simp
      rw [if_neg (by omega : ¬((encToks g').length + 1 + 1 + rrem = 0)), if_neg hfl,
        if_neg (by omega : ¬((encToks g').length + 1 + 1 + rrem < 2))]
      rw [hdec1, hdec2]
      have hsub : (encToks g').length + 1 + 1 + rrem - 2 = (encToks g').length + rrem := by
        omega
      rw [hsub, decodeBitsS_encToks g' (copyRef s off len).2 flags (bit + 1) rest rrem
        hlen' hwf' hbits' hend']
      simp [runTokens, runToken]

/-- Stream-decoder counterpart of `decodeLoop_enc`. -/
theorem decodeLoopS_enc : ∀ (n : Nat) (ts : List Token), ts.length ≤ n →
    ∀ (s : State) (rest : List Nat) (fuel : Nat), ts.length ≤ fuel →
    (∀ t ∈ ts, t.WF) →
    decodeLoopS fuel s (encodeTokens ts ++ rest) (encodeTokens ts).length =
      ⟨(runTokens s ts).1, (runTokens s ts).2, rest, 0⟩
  | _, [], _, s, rest, fuel, _, _ => by
    cases fuel with
    | zero => rfl
    | succ f => simp [decodeLoopS, encodeTokens, encodeTokensF, runTokens]
  | 0, t :: ts0, hn, _, _, _, _, _ => by simp at hn
  | n + 1, t :: ts0, hn, s, rest, fuel, hfuel, hwf => by
    cases fuel with
    | zero => simp at hfuel
    | succ f =>
      rw [encodeTokens_cons]
      have hsplit : (t :: ts0).take 8 ++ (t :: ts0).drop 8 = t :: ts0 :=
        List.take_append_drop 8 (t :: ts0)
      have hwfg : ∀ u ∈ (t :: ts0).take 8, u.WF :=
        fun u hu => hwf u (List.take_subset 8 _ hu)
      have hwfd : ∀ u ∈ (t :: ts0).drop 8, u.WF :=
        fun u hu => hwf u (List.drop_subset 8 _ hu)
      have hend : (encodeTokens ((t :: ts0).drop 8)).length = 0 ∨
          0 + ((t :: ts0).take 8).length = 8 := by
        by_cases h8 : (t :: ts0).length ≤ 8
        · left
          rw [List.drop_eq_nil_of_le h8]
          rfl
        · right
          simp only [List.length_take, Nat.zero_add]
          omega
      have hbits : ∀ i (h : i < ((t :: ts0).take 8).length),
          (flagsOf ((t :: ts0).take 8)).testBit (0 + i) =
            (((t :: ts0).take 8).get ⟨i, h⟩).isLit := by
        intro i h
        rw [Nat.zero_add]
        exact flagsOf_testBit _ i h
      have H1 := decodeBitsS_encToks ((t :: ts0).take 8) s (flagsOf ((t :: ts0).take 8)) 0
        (encodeTokens ((t :: ts0).drop 8) ++ rest) (encodeTokens ((t :: ts0).drop 8)).length
        (by simp only [List.length_take, Nat.zero_add]; omega) hwfg hbits hend
      rw [Nat.sub_zero] at H1
      have hinp : (encGroup ((t :: ts0).take 8) ++ encodeTokens ((t :: ts0).drop 8)) ++ rest =
          flagsOf ((t :: ts0).take 8) ::
            (encToks ((t :: ts0).take 8) ++ (encodeTokens ((t :: ts0).drop 8) ++ rest)) := by
        simp [encGroup, List.append_assoc]
      have hlen2 : (encGroup ((t :: ts0).take 8) ++ encodeTokens ((t :: ts0).drop 8)).length =
          ((encToks ((t :: ts0).take 8)).length +
            (encodeTokens ((t :: ts0).drop 8)).length) + 1 := by
        simp only [encGroup, List.length_append, List.length_cons]
        omega
      rw [hinp, hlen2]
      simp only [decodeLoopS]
      rw [if_neg (by omega :
        ¬((encToks ((t :: ts0).take 8)).length + (encodeTokens ((t :: ts0).drop 8)).length + 1
          = 0))]
      have hsub : (encToks ((t :: ts0).take 8)).length +
          (encodeTokens ((t :: ts0).drop 8)).length + 1 - 1 =
          (encToks ((t :: ts0).take 8)).length + (encodeTokens ((t :: ts0).drop 8)).length := by
        omega
      rw [hsub, H1]
      have H2 := decodeLoopS_enc n ((t :: ts0).drop 8)
        (by simp only [List.length_drop, List.length_cons] at hn ⊢; omega)
        (runTokens s ((t :: ts0).take 8)).2 rest f
        (by simp only [List.length_drop, List.length_cons] at hfuel ⊢; omega) hwfd
      simp only [H2]
      have hrt := runTokens_append ((t :: ts0).take 8) ((t :: ts0).drop 8) s
      rw [hsplit] at hrt
      rw [hrt]

/-- `decode_stream` on a fully encoded token stream followed by arbitrary
further stream content: it consumes exactly the encoded bytes, leaves the
rest of the stream unread, and produces the token semantics from the given
(not reset) state. -/
theorem decode_stream_enc (ts : List Token) (s : State) (rest : List Nat)
    (hwf : ∀ t ∈ ts, t.WF) :
    decode_stream s (encodeTokens ts ++ rest) (encodeTokens ts).length =
      ⟨(runTokens s ts).1, (runTokens s ts).2, rest, 0⟩ := by
  apply decodeLoopS_enc ts.length ts le_rfl s rest
  · calc ts.length ≤ (encodeTokens ts).length :=
        length_le_encodeTokens_length ts.length ts le_rfl
      _ ≤ (encodeTokens ts ++ rest).length := by simp
  · exact hwf

/-! ## Chunked reads versus monolithic decodes -/

theorem and_top_bit_of_lt (v : Nat) (h : v < 32768) : v &&& 32768 = 0 := by
  have : v &&& 2 ^ 15 = (v.testBit 15).toNat * 2 ^ 15 := Nat.and_two_pow v 15
  rw [Nat.testBit_eq_false_of_lt (by norm_num [h] : v < 2 ^ 15)] at this
  simpa using this

theorem and_top_bit_of_add (n : Nat) (h : n < 32768) : (32768 + n) &&& 32768 ≠ 0 := by
  have ht : (32768 + n).testBit 15 = true := by
    rw [Nat.testBit_to_div_mod]
    have : (32768 + n) / 2 ^ 15 = 1 := by
      have : (2 ^ 15 + n) / 2 ^ 15 = 1 := by
        rw [Nat.add_div_left n (by norm_num)]
        omega
      simpa using this
    rw [this]
    rfl
  have : (32768 + n) &&& 2 ^ 15 = ((32768 + n).testBit 15).toNat * 2 ^ 15 :=
    Nat.and_two_pow _ 15
  rw [ht] at this
  simp only [Bool.toNat_true, one_mul] at this
  rw [show (32768 : Nat) = 2 ^ 15 by norm_num] at this ⊢
  rw [this]
  positivity

theorem and_low_mask_of_add (n : Nat) (h : n < 32768) : (32768 + n) &&& 32767 = n := by
  have := Nat.and_pow_two_sub_one_eq_mod (32768 + n) 15
  norm_num at this
  rw [this]
  omega

theorem u16_enc16 (v : Nat) (h : v < 65536) :
    ∀ rest : Bytes, enc16 v ++ rest = (v / 256 % 256) :: v % 256 :: rest ∧
      (v / 256 % 256) * 256 + v % 256 = v := by
  intro rest
  refine ⟨rfl, ?_⟩
  have : v / 256 % 256 = v / 256 := Nat.mod_eq_of_lt (by omega)
  rw [this]
  omega

theorem tokensOutLen_append (a b : List Token) :
    tokensOutLen (a ++ b) = tokensOutLen a + tokensOutLen b := by
  simp [tokensOutLen]

theorem tokensOutLen_litMap (bs : List Nat) : tokensOutLen (bs.map Token.lit) = bs.length := by
  induction bs with
  | nil => rfl
  | cons b bs' ih => simp [tokensOutLen, Token.outLen] at ih ⊢; omega

theorem chunk_enc_length_ge (c : Chunk) : 2 ≤ c.enc.length := by
  cases c <;> simp [Chunk.enc, enc16]

theorem length_le_encodeChunks_length (cs : List Chunk) :
    cs.length ≤ (encodeChunks cs).length := by
  induction cs with
  | nil => simp [encodeChunks]
  | cons c cs' ih =>
    have := chunk_enc_length_ge c
    simp only [encodeChunks, List.map_cons, List.flatten_cons, List.length_append,
      List.length_cons] at ih ⊢
    omega

theorem chunksTokens_cons (c : Chunk) (cs : List Chunk) :
    chunksTokens (c :: cs) = c.tokens ++ chunksTokens cs := by
  simp [chunksTokens]

theorem chunksTokens_WF (cs : List Chunk) (hwf : ∀ c ∈ cs, c.WF) :
    ∀ t ∈ chunksTokens cs, t.WF := by
  intro t ht
  simp only [chunksTokens, List.mem_flatten, List.mem_map] at ht
  obtain ⟨l, ⟨c, hc, rfl⟩, htl⟩ := ht
  have := hwf c hc
  cases c with
  | raw bs =>
    simp only [Chunk.tokens, List.mem_map] at htl
    obtain ⟨b, hb, rfl⟩ := htl
    exact (this.1 b hb : _)
  | lz ts => exact this.1 t htl

/-- The chunk loop of `_read_chunked`, run from any decoder state over an
encoded chunk list (followed by arbitrary stream content) with target
exactly the total decoded size, produces the token semantics of the
concatenated chunk contents: the state is threaded through raw and LZSS
chunks alike, never reset. -/
theorem readChunkedLoop_enc :
    ∀ (cs : List Chunk) (s : State) (fuel target produced : Nat) (restIn : Bytes),
      (∀ c ∈ cs, c.WF) →
      cs.length < fuel →
      produced + tokensOutLen (chunksTokens cs) = target →
      (readChunkedLoop fuel s (encodeChunks cs ++ restIn) target produced).out =
        (runTokens s (chunksTokens cs)).1
  | [], s, fuel, target, produced, restIn, hwf, hfuel, htarget => by
    obtain ⟨f, rfl⟩ : ∃ f, fuel = f + 1 := ⟨fuel - 1, by omega⟩
    simp only [chunksTokens, List.map_nil, List.flatten_nil, tokensOutLen, List.map_nil,
      List.sum_nil, Nat.add_zero] at htarget
    subst htarget
    simp [readChunkedLoop, runTokens]
  | c :: cs', s, fuel, target, produced, restIn, hwf, hfuel, htarget => by
    obtain ⟨f, rfl⟩ : ∃ f, fuel = f + 1 := ⟨fuel - 1, by omega⟩
    have hwf' : ∀ d ∈ cs', d.WF := fun d hd => hwf d (List.mem_cons_of_mem _ hd)
    by_cases hp : produced < target
    case neg =>
      have hz : (runTokens s (chunksTokens (c :: cs'))).1 = [] := by
        have hl := runTokens_outLen (chunksTokens (c :: cs')) s
        have : tokensOutLen (chunksTokens (c :: cs')) = 0 := by omega
        rw [this] at hl
        exact List.length_eq_zero.mp hl
      rw [hz]
      simp [readChunkedLoop, hp]
    case pos =>
      cases c with
      | raw bs =>
        have hcw := hwf _ (List.mem_cons_self _ _)
        simp only [Chunk.WF] at hcw
        obtain ⟨hbytes, hblen⟩ := hcw
        have hinp : encodeChunks (Chunk.raw bs :: cs') ++ restIn =
            ((32768 + bs.length) / 256 % 256) :: ((32768 + bs.length) % 256) ::
              (bs ++ (encodeChunks cs' ++ restIn)) := by
          simp [encodeChunks, Chunk.enc, enc16, List.append_assoc]
        rw [hinp]
        simp only [readChunkedLoop]
        rw [if_pos hp]
        have hhdr : ((32768 + bs.length) / 256 % 256) * 256 + ((32768 + bs.length) % 256) =
            32768 + bs.length := by
          have : (32768 + bs.length) / 256 % 256 = (32768 + bs.length) / 256 :=
            Nat.mod_eq_of_lt (by omega)
          rw [this]
          omega
        rw [hhdr, if_pos (and_top_bit_of_add bs.length (by omega)),
          and_low_mask_of_add bs.length (by omega), List.take_left, List.drop_left]
        have htarget' : produced + bs.length + tokensOutLen (chunksTokens cs') = target := by
          rw [chunksTokens_cons, tokensOutLen_append] at htarget
          simp only [Chunk.tokens, tokensOutLen_litMap] at htarget
          omega
        have IH := readChunkedLoop_enc cs' (update_ring_buffer s bs) f target
          (produced + bs.length) restIn hwf' (by simpa using hfuel) htarget'
        rw [IH]
        rw [chunksTokens_cons]
        have hrt := runTokens_append (bs.map Token.lit) (chunksTokens cs') s
        rw [runTokens_litMap] at hrt
        simp only [Chunk.tokens]
        rw [hrt]
      | lz ts =>
        have hcw := hwf _ (List.mem_cons_self _ _)
        simp only [Chunk.WF] at hcw
        obtain ⟨hts, hlen⟩ := hcw
        have hinp : encodeChunks (Chunk.lz ts :: cs') ++ restIn =
            ((encodeTokens ts).length / 256 % 256) :: ((encodeTokens ts).length % 256) ::
              (encodeTokens ts ++ (encodeChunks cs' ++ restIn)) := by
          simp [encodeChunks, Chunk.enc, enc16, List.append_assoc]
        rw [hinp]
        simp only [readChunkedLoop]
        rw [if_pos hp]
        have hhdr : ((encodeTokens ts).length / 256 % 256) * 256 +
            ((encodeTokens ts).length % 256) = (encodeTokens ts).length := by
          have : (encodeTokens ts).length / 256 % 256 = (encodeTokens ts).length / 256 :=
            Nat.mod_eq_of_lt (by omega)
          rw [this]
          omega
        rw [hhdr, if_neg (by rw [and_top_bit_of_lt _ (by omega)]; simp)]
        rw [decode_stream_enc ts s (encodeChunks cs' ++ restIn) hts]
        have htarget' : produced + (runTokens s ts).1.length +
            tokensOutLen (chunksTokens cs') = target := by
          rw [chunksTokens_cons, tokensOutLen_append] at htarget
          simp only [Chunk.tokens] at htarget
          rw [runTokens_outLen]
          omega
        have IH := readChunkedLoop_enc cs' (runTokens s ts).2 f target
          (produced + (runTokens s ts).1.length) restIn hwf' (by simpa using hfuel) htarget'
        rw [IH]
        rw [chunksTokens_cons]
        have hrt := runTokens_append ts (chunksTokens cs') s
        simp only [Chunk.tokens]
        rw [hrt]

end LZSS

/-! ## The claims -/

/-- **C3.** In an LZSS decode, the 8 bits of each flag byte are consumed
low-to-high, one per token: a 1-bit takes the next input byte as a literal
(emitted and written at the ring cursor, which advances modulo 4096), and a
0-bit takes the next two input bytes as a back-reference with 12-bit offset
`byte0 | ((byte1 & 0xF0) << 4)` and length `(byte1 & 0x0F) + 3` (range
3–18), whose bytes are copied one at a time from the ring buffer with each
copied byte also written at the cursor, so a self-overlapping reference
reproduces bytes emitted earlier in the same decode.
Formalised: `decode`, run on `encodeTokens ts` — which packs each group of
up to eight tokens behind a flag byte whose bit `i`, tested low-to-high, is
set exactly for literals, and encodes a reference `off, len` as the two
bytes `[off % 256, off / 256 * 16 + (len - 3)]`, the inverse of the above
formulas — produces exactly the token semantics `runTokens`, whose
reference case is the byte-at-a-time `copyRef` through the ring cursor. -/
theorem C3_lzss_token_decode (ts : List LZSS.Token) (hwf : ∀ t ∈ ts, t.WF) :
    LZSS.decode (LZSS.encodeTokens ts) (LZSS.encodeTokens ts).length =
      (LZSS.runTokens LZSS.resetState ts).1 :=
  LZSS.decode_encodeTokens ts hwf

/-- Witness for C3, with a self-overlapping back-reference: after literals
`A B` the reference at offset 4078 of length 4 copies two bytes it wrote
itself, giving `A B A B A B`. -/
theorem C3_lzss_token_decode_witness :
    (∀ t ∈ ([LZSS.Token.lit 65, LZSS.Token.lit 66, LZSS.Token.ref 4078 4] :
      List LZSS.Token), LZSS.Token.WF t) ∧
    LZSS.decode
        (LZSS.encodeTokens [LZSS.Token.lit 65, LZSS.Token.lit 66, LZSS.Token.ref 4078 4])
        (LZSS.encodeTokens
          [LZSS.Token.lit 65, LZSS.Token.lit 66, LZSS.Token.ref 4078 4]).length =
      [65, 66, 65, 66, 65, 66] :=
  ⟨by decide, by
    rw [C3_lzss_token_decode _ (by decide)]
    decide⟩

/-- **C2.** For every LZSS token stream and every way of splitting it into
chunks (raw chunks flagged by the 0x8000 header bit, LZSS chunks
otherwise), the chunked read produces byte-identical output to decoding the
same logical content as one fully-compressed block, because the ring-buffer
state persists across chunks without reset and raw chunks are also folded
into the ring buffer.
Formalised: for any chunk list `cs` (each raw chunk at most `0x7FFF` bytes
of byte values, each LZSS chunk a well-formed token list whose encoding is
below `0x8000` bytes), `_read_chunked` on an archive entry holding
`encodeChunks cs` with declared unpacked size the total decoded length
equals the one-shot `decompress` of the single block encoding the
concatenated token content (raw bytes as literal tokens). -/
theorem C2_chunked_read_eq_monolithic (cs : List LZSS.Chunk) (pre : Bytes)
    (entries : List (Bytes × DATEntry)) (path : Bytes) (flags packed : Nat)
    (hwf : ∀ c ∈ cs, c.WF) :
    read_chunked ⟨pre ++ LZSS.encodeChunks cs, entries⟩
        ⟨path, flags, pre.length, packed, LZSS.tokensOutLen (LZSS.chunksTokens cs)⟩ =
      LZSS.decompress (LZSS.encodeTokens (LZSS.chunksTokens cs)) := by
  have h := LZSS.readChunkedLoop_enc cs LZSS.resetState ((LZSS.encodeChunks cs).length + 1)
    (LZSS.tokensOutLen (LZSS.chunksTokens cs)) 0 [] hwf
    (Nat.lt_succ_of_le (LZSS.length_le_encodeChunks_length cs)) (by omega)
  rw [List.append_nil] at h
  show ((readChunkedLoop _ LZSS.resetState ((pre ++ LZSS.encodeChunks cs).drop pre.length)
      _ 0).out).take _ = _
  rw [List.drop_left]
  rw [h, LZSS.decompress_encodeTokens _ (LZSS.chunksTokens_WF cs hwf)]
  have hl := LZSS.runTokens_outLen (LZSS.chunksTokens cs) LZSS.resetState
  rw [← hl, List.take_length]

/-- Witness for C2: a raw chunk `A B` followed by an LZSS chunk whose
back-reference reaches into the raw chunk's ring-buffer contribution. -/
theorem C2_chunked_read_eq_monolithic_witness :
    (∀ c ∈ ([LZSS.Chunk.raw [65, 66], LZSS.Chunk.lz [LZSS.Token.lit 67,
        LZSS.Token.ref 4078 3]] : List LZSS.Chunk), LZSS.Chunk.WF c) ∧
    read_chunked
        ⟨[] ++ LZSS.encodeChunks [LZSS.Chunk.raw [65, 66],
            LZSS.Chunk.lz [LZSS.Token.lit 67, LZSS.Token.ref 4078 3]], []⟩
        ⟨[], 64, List.length ([] : Bytes), 0,
          LZSS.tokensOutLen (LZSS.chunksTokens [LZSS.Chunk.raw [65, 66],
            LZSS.Chunk.lz [LZSS.Token.lit 67, LZSS.Token.ref 4078 3]])⟩ =
      LZSS.decompress (LZSS.encodeTokens (LZSS.chunksTokens [LZSS.Chunk.raw [65, 66],
        LZSS.Chunk.lz [LZSS.Token.lit 67, LZSS.Token.ref 4078 3]])) :=
  ⟨by decide, C2_chunked_read_eq_monolithic _ [] [] [] 64 0 (by decide)⟩

/-- **C1 (amended).** For every archive entry whose flags word has high
nibble `0x10`, `read_file` reads the entry's `packed_size` stored bytes and
feeds them through a one-shot LZSS decode whose *input-byte budget* is
`unpacked_size` (that is the second argument of `LZSSDecoder.decode`); the
decode's output is returned as-is, so the result has exactly
`unpacked_size` bytes only when the stored token stream produces that many
— no padding or truncation is applied. -/
theorem C1_lzss_read_budget (a : DATArchive) (path : Bytes) (e : DATEntry)
    (hfind : dictFind a.entries (pathKey path) = some e)
    (hflag : e.flags &&& 0xF0 = 0x10) :
    read_file a path =
      some (LZSS.decode (fileRead a.file e.offset e.packed_size) e.unpacked_size) := by
  simp only [read_file, hfind, hflag]
  norm_num

/-- Witness for the amended C1 on the concrete archive `c1dat`. -/
theorem C1_lzss_read_budget_witness :
    dictFind (openDAT c1dat).entries (pathKey [68, 92, 70]) =
      some ⟨[68, 92, 70], 16, 52, 2, 5⟩ ∧
    (16 : Nat) &&& 0xF0 = 0x10 ∧
    read_file (openDAT c1dat) [68, 92, 70] =
      some (LZSS.decode (fileRead (openDAT c1dat).file 52 2) 5) :=
  ⟨by decide, by decide,
    C1_lzss_read_budget (openDAT c1dat) [68, 92, 70] ⟨[68, 92, 70], 16, 52, 2, 5⟩
      (by decide) (by decide)⟩

/-- **C1 counterexample.** The claim asserts the read of a `0x10`-flagged
entry returns exactly `unpacked_size` decompressed bytes; in `c1dat` the
entry declares `unpacked_size = 5` but the read returns the one byte the
stored stream actually decodes to. -/
theorem C1_counterexample :
    get_entry (openDAT c1dat) [68, 92, 70] = some ⟨[68, 92, 70], 16, 52, 2, 5⟩ ∧
    read_file (openDAT c1dat) [68, 92, 70] = some [65] ∧
    ([65] : List Nat).length ≠ 5 := by decide

/-- **C10.** For every archive entry whose flags word's high nibble is none
of `0x10`, `0x20`, or `0x40`, `read_file` does not fail: it falls back to a
raw copy, returning the entry's `packed_size` bytes verbatim from the
entry's offset. -/
theorem C10_unknown_flag_raw_copy (a : DATArchive) (path : Bytes) (e : DATEntry)
    (hfind : dictFind a.entries (pathKey path) = some e)
    (h20 : e.flags &&& 0xF0 ≠ 0x20) (h10 : e.flags &&& 0xF0 ≠ 0x10)
    (h40 : e.flags &&& 0xF0 ≠ 0x40) :
    read_file a path = some (fileRead a.file e.offset e.packed_size) := by
  simp only [read_file, hfind]
  rw [if_neg h20, if_neg h10, if_neg h40]

/-- Witness for C10 on the concrete archive `c10dat`, flags `0x50`. -/
theorem C10_unknown_flag_raw_copy_witness :
    dictFind (openDAT c10dat).entries (pathKey [68, 92, 70]) =
      some ⟨[68, 92, 70], 80, 52, 2, 5⟩ ∧
    (80 : Nat) &&& 0xF0 = 0x50 ∧
    read_file (openDAT c10dat) [68, 92, 70] = some (fileRead (openDAT c10dat).file 52 2) ∧
    read_file (openDAT c10dat) [68, 92, 70] = some [9, 9] :=
  ⟨by decide, by decide,
    C10_unknown_flag_raw_copy (openDAT c10dat) [68, 92, 70] ⟨[68, 92, 70], 80, 52, 2, 5⟩
      (by decide) (by decide) (by decide) (by decide),
    by decide⟩

/-- `pathKey` is plain uppercasing on a path containing no forward slash. -/
theorem pathKey_eq_strUpper (p : Bytes) (h : (47 : Nat) ∉ p) : pathKey p = strUpper p := by
  unfold pathKey strUpper
  induction p with
  | nil => rfl
  | cons c p' ih =>
    simp only [List.map_cons, List.cons.injEq]
    constructor
    · have hc : c ≠ 47 := fun hc => h (by simp [hc])
      by_cases hr : 97 ≤ c ∧ c ≤ 122
      · rw [if_pos hr, if_neg (by omega)]
      · rw [if_neg hr, if_neg (by omega)]
    · exact ih (fun hm => h (List.mem_cons_of_mem _ hm))

/-- **C9 (amended).** For every entry stored in a parsed archive index whose
stored path contains no forward slash (paths are stored with backslash
separators), every query path differing from the stored path only in letter
case and in the use of `/` versus `\` as separators — i.e. with the same
normalised key — resolves to that entry under `get_entry` and `exists`, and
`read_file` on the query returns exactly what it returns on the stored path.
An entry whose stored directory name itself contains `/` is not reachable by
any query (see the counterexample). -/
theorem C9_case_separator_insensitive (d : Bytes) (e : DATEntry) (q : Bytes)
    (hstored : dictFind (parse_index d) (strUpper e.path) = some e)
    (hnoslash : (47 : Nat) ∉ e.path)
    (hq : pathKey q = pathKey e.path) :
    get_entry (openDAT d) q = some e ∧ exists_path (openDAT d) q = true ∧
      read_file (openDAT d) q = read_file (openDAT d) e.path := by
  have hkey : pathKey e.path = strUpper e.path := pathKey_eq_strUpper e.path hnoslash
  have hget : get_entry (openDAT d) q = some e := by
    unfold get_entry openDAT
    rw [hq, hkey]
    exact hstored
  refine ⟨hget, ?_, ?_⟩
  · unfold exists_path
    unfold get_entry at hget
    rw [hget]
    rfl
  · unfold read_file
    rw [hq]

/-- Witness for the amended C9: `Dir\Foo.msg` queried as `dir/FOO.MSG`. -/
theorem C9_case_separator_insensitive_witness :
    dictFind (parse_index c9wdat)
        (strUpper [68, 105, 114, 92, 70, 111, 111, 46, 109, 115, 103]) =
      some ⟨[68, 105, 114, 92, 70, 111, 111, 46, 109, 115, 103], 32, 60, 2, 2⟩ ∧
    (47 : Nat) ∉ [68, 105, 114, 92, 70, 111, 111, 46, 109, 115, 103] ∧
    get_entry (openDAT c9wdat) [100, 105, 114, 47, 70, 79, 79, 46, 77, 83, 71] =
      some ⟨[68, 105, 114, 92, 70, 111, 111, 46, 109, 115, 103], 32, 60, 2, 2⟩ ∧
    exists_path (openDAT c9wdat) [100, 105, 114, 47, 70, 79, 79, 46, 77, 83, 71] = true ∧
    read_file (openDAT c9wdat) [100, 105, 114, 47, 70, 79, 79, 46, 77, 83, 71] =
      read_file (openDAT c9wdat) [68, 105, 114, 92, 70, 111, 111, 46, 109, 115, 103] :=
  ⟨by decide, by decide,
    (C9_case_separator_insensitive c9wdat
      ⟨[68, 105, 114, 92, 70, 111, 111, 46, 109, 115, 103], 32, 60, 2, 2⟩
      [100, 105, 114, 47, 70, 79, 79, 46, 77, 83, 71]
      (by decide) (by decide) (by decide)).1,
    (C9_case_separator_insensitive c9wdat
      ⟨[68, 105, 114, 92, 70, 111, 111, 46, 109, 115, 103], 32, 60, 2, 2⟩
      [100, 105, 114, 47, 70, 79, 79, 46, 77, 83, 71]
      (by decide) (by decide) (by decide)).2.1,
    (C9_case_separator_insensitive c9wdat
      ⟨[68, 105, 114, 92, 70, 111, 111, 46, 109, 115, 103], 32, 60, 2, 2⟩
      [100, 105, 114, 47, 70, 79, 79, 46, 77, 83, 71]
      (by decide) (by decide) (by decide)).2.2⟩

/-- **C9 counterexample.** In `c9dat` the stored directory name is `A/B`, so
the index holds an entry with path `A/B\C`; querying that very stored path
(a zero-difference "variant") fails to resolve, because lookup keys have
all forward slashes rewritten while stored keys do not. -/
theorem C9_counterexample :
    (openDAT c9dat).entries =
      [([65, 47, 66, 92, 67], ⟨[65, 47, 66, 92, 67], 32, 54, 2, 2⟩)] ∧
    exists_path (openDAT c9dat) [65, 47, 66, 92, 67] = false ∧
    get_entry (openDAT c9dat) [65, 47, 66, 92, 67] = none := by decide

/-- The fields of a parsed script that `_parse` fixes structurally: the
underlying buffer, the code end (the whole file), and the identifiers
offset, which is the position right after the procedure table — the
position of the identifiers-table *length field* itself. -/
theorem script_parse_fields (data : Bytes) (s : Script.ScriptS)
    (hp : Script.parse data = some s) :
    s.data = data ∧ s.code_end = data.length ∧
      s.identifiers_offset = (Script.readProcs data (Script.long_at data 42) 0 (42 + 4)).2 := by
  unfold Script.parse at hp
  split_ifs at hp
  injection hp with hp
  subst hp
  exact ⟨rfl, rfl, rfl⟩

/-- **C6.** For every PUSH instruction (opcode low 10 bits equal 1) the next
4 bytes are its operand, interpreted per the opcode high byte's flag bits,
tested in this order: int flag `0x40` → the signed 32-bit integer; float
flag `0x20` → the IEEE-754 float reinterpreting the same 4 bytes;
static-string flag `0x10` → the offset resolved immediately to the
static-string text; dynamic-string flag `0x08` → the offset left unresolved
as a number; no flag → the signed integer. -/
theorem C6_push_operand_dispatch (data : Bytes) (s : Script.ScriptS)
    (offset opcode raw : Nat)
    (hp : Script.parse data = some s)
    (hop : Script.read_word data offset = some opcode)
    (hpush : opcode &&& 0x3FF = 1)
    (hraw : Script.read_long data (offset + 2) = some raw)
    (hroom : offset + 2 + 4 ≤ data.length) :
    Script.iterNext s offset =
      (some ⟨offset, opcode, some (
        if (opcode >>> 8) &&& 0xFF &&& 0x40 ≠ 0 then .int (toSigned32 raw)
        else if (opcode >>> 8) &&& 0xFF &&& 0x20 ≠ 0 then .float (Script.floatOfBits raw)
        else if (opcode >>> 8) &&& 0xFF &&& 0x10 ≠ 0 then
          .str (Script.get_static_string s raw)
        else if (opcode >>> 8) &&& 0xFF &&& 0x08 ≠ 0 then .dyn raw
        else .int (toSigned32 raw)), 6⟩, offset + 2 + 4) := by
  obtain ⟨hd, hc, _⟩ := script_parse_fields data s hp
  unfold Script.iterNext
  rw [hd, hc]
  rw [if_neg (by omega : ¬¬(offset + 2 ≤ data.length))]
  rw [hop]
  simp only [hpush, if_pos, if_true, reduceIte]
  rw [if_pos hroom, hraw]

/-- Witness for C6: in `c6script`, payload `0x3F800000` decodes as the
integer 1065353216 under the int flag (`0xC001`) and as the float 1.0 under
the float flag (`0xA001`). -/
theorem C6_push_operand_dispatch_witness :
    Script.parse c6dat = some c6script ∧
    Script.iterNext c6script 0 = (some ⟨0, 0xC001, some (.int 1065353216), 6⟩, 6) ∧
    Script.iterNext c6script 6 = (some ⟨6, 0xA001, some (.float (.finite 1)), 6⟩, 12) :=
  ⟨by decide,
    by
      rw [C6_push_operand_dispatch c6dat c6script 0 0xC001 0x3F800000 (by decide) (by decide)
        (by decide) (by decide) (by decide)]
      rw [if_pos (by decide : (0xC001 >>> 8) &&& 0xFF &&& 0x40 ≠ 0)]
      decide,
    by
      rw [C6_push_operand_dispatch c6dat c6script 6 0xA001 0x3F800000 (by decide) (by decide)
        (by decide) (by decide) (by decide)]
      rw [if_neg (by decide : ¬(0xA001 >>> 8) &&& 0xFF &&& 0x40 ≠ 0),
        if_pos (by decide : (0xA001 >>> 8) &&& 0xFF &&& 0x20 ≠ 0)]
      have hf : Script.floatOfBits 0x3F800000 = .finite 1 := by
        unfold Script.floatOfBits
        norm_num
      rw [hf]⟩

/-- **C7 (amended).** Resolving an identifier-table offset (as done for
every procedure's name) returns the NUL-terminated string located that many
bytes past the *start* of the identifiers-table length field (the
identifiers base includes the 4-byte length field), not past its end: for a
parsed script, `get_identifier s off` is the NUL-terminated string at
absolute position `s.identifiers_offset + off`, where
`s.identifiers_offset` is the position of the length field itself. -/
theorem C7_identifier_offset_from_length_field (data : Bytes) (s : Script.ScriptS)
    (off : Nat) (hp : Script.parse data = some s)
    (hin : s.identifiers_offset + off < data.length) :
    Script.get_identifier s off =
      decodeAsciiReplace (Script.nullTermString data (s.identifiers_offset + off)) := by
  obtain ⟨hd, _, _⟩ := script_parse_fields data s hp
  unfold Script.get_identifier
  rw [hd, if_neg (by omega)]

/-- Witness for the amended C7 on `c7dat`: offset 4 resolves to the string
at absolute position 50, i.e. `AB`. -/
theorem C7_identifier_offset_from_length_field_witness :
    Script.parse c7dat = some c7script ∧
    c7script.identifiers_offset + 4 < c7dat.length ∧
    Script.get_identifier c7script 4 =
      decodeAsciiReplace (Script.nullTermString c7dat (c7script.identifiers_offset + 4)) ∧
    Script.get_identifier c7script 4 = [65, 66] :=
  ⟨by decide, by decide,
    C7_identifier_offset_from_length_field c7dat c7script 4 (by decide) (by decide),
    by decide⟩

/-- **C7 counterexample.** In `c7dat` the identifiers length field occupies
bytes 46–49 and the string data starts at byte 50.  `get_identifier 4`
returns the string at byte 50 (`AB`) — 4 bytes past the *start* of the
length field — whereas the claim places it 4 bytes past the *end* of the
length field, i.e. at byte 54 (`D`). -/
theorem C7_counterexample :
    Script.parse c7dat = some c7script ∧
    c7script.identifiers_offset = 46 ∧
    Script.get_identifier c7script 4 = [65, 66] ∧
    decodeAsciiReplace (Script.nullTermString c7dat ((46 + 4) + 4)) = [68] ∧
    ([65, 66] : Bytes) ≠ [68] := by decide

/-- The thirteen common reads of a script slot always consume exactly 56
bytes and keep the `scr_id` they were handed. -/
theorem read_commons_ok {data : Bytes} {o : Nat} {a b c d e : Int} {s : FMap.MapScript}
    {off' : Nat} (h : FMap.read_commons data o a b c d e = some (s, off')) :
    off' = o + 56 ∧ s.scr_id = a := by
  unfold FMap.read_commons at h
  split at h
  · rw [Option.some.injEq, Prod.mk.injEq] at h
    obtain ⟨hs, hoff⟩ := h
    subst hoff
    rw [← hs]
    exact ⟨rfl, rfl⟩
  · exact absurd h (by simp)

/-- **C5 (amended).** For every map script record, the type tag in the high
byte of its identifier fully determines the record's on-disk size: a
Spatial record occupies 18 32-bit words (72 bytes), a Timed record 17 (68
bytes), and records of any other tag — in particular System, Item and
Critter — 16 (64 bytes); so a Spatial-tagged record consumes **8** more
bytes than a System/Item/Critter record and **4** more than a Timed
record. -/
theorem C5_script_record_size (data : Bytes) (off : Nat) (s : FMap.MapScript) (off' : Nat)
    (h : FMap.read_script_slot data off = some (s, off')) :
    off' = off + (if highByteI s.scr_id = 1 then 18 * 4
      else if highByteI s.scr_id = 2 then 17 * 4 else 16 * 4) := by
  unfold FMap.read_script_slot at h
  split_ifs at h with hg
  split at h
  case _ scr_id scr_next _ _ =>
    dsimp only at h
    split_ifs at h with hs1 hs2
    · split at h
      case _ bt rad _ _ =>
        obtain ⟨ho, hs⟩ := read_commons_ok h
        rw [if_pos (by rw [hs]; exact hs1)]
        omega
      case _ => exact absurd h (by simp)
    · split at h
      case _ tm _ =>
        obtain ⟨ho, hs⟩ := read_commons_ok h
        rw [if_neg (by rw [hs]; exact hs1), if_pos (by rw [hs]; exact hs2)]
        omega
      case _ => exact absurd h (by simp)
    · obtain ⟨ho, hs⟩ := read_commons_ok h
      rw [if_neg (by rw [hs]; exact hs1), if_neg (by rw [hs]; exact hs2)]
      omega
  case _ => exact absurd h (by simp)

/-- Witness for the amended C5 on the concrete Spatial slot. -/
theorem C5_script_record_size_witness :
    FMap.read_script_slot c5spatial 0 =
      some (⟨16777216, 0, 0, 0, 0, 0, 0, 0, 0, 0, 0, 0, 0, 0, 0, 0, 0, 0⟩, 72) ∧
    (72 : Nat) = 0 + (if highByteI (16777216 : Int) = 1 then 18 * 4
      else if highByteI (16777216 : Int) = 2 then 17 * 4 else 16 * 4) :=
  ⟨by decide,
    C5_script_record_size c5spatial 0
      ⟨16777216, 0, 0, 0, 0, 0, 0, 0, 0, 0, 0, 0, 0, 0, 0, 0, 0, 0⟩ 72 (by decide)⟩

/-- **C5 counterexample.** The claim's byte arithmetic is off by a factor of
two: a Spatial record (72 bytes) consumes 8 more bytes than a System record
(64 bytes), not 4, and 4 more than a Timed record (68 bytes), not 2. -/
theorem C5_counterexample :
    FMap.read_script_slot c5spatial 0 =
      some (⟨16777216, 0, 0, 0, 0, 0, 0, 0, 0, 0, 0, 0, 0, 0, 0, 0, 0, 0⟩, 72) ∧
    FMap.read_script_slot c5system 0 =
      some (⟨0, 0, 0, 0, 0, 0, 0, 0, 0, 0, 0, 0, 0, 0, 0, 0, 0, 0⟩, 64) ∧
    FMap.read_script_slot c5timed 0 =
      some (⟨33554432, 0, 0, 0, 0, 0, 0, 0, 0, 0, 0, 0, 0, 0, 0, 0, 0, 0⟩, 68) ∧
    highByteI (16777216 : Int) = 1 ∧ highByteI (33554432 : Int) = 2 ∧
    highByteI (0 : Int) = 0 ∧
    ¬(72 - 64 = 4) ∧ ¬(72 - 68 = 2) := by decide

namespace FMap

theorem PRead.run_bind {α β : Type} (m : PRead α) (f : α → PRead β) (off : Nat) :
    (m >>= f) off = match m off with
      | .error e => .error e
      | .ok (a, o) => f a o := rfl

theorem PRead.run_pure {α : Type} (a : α) (off : Nat) :
    (pure a : PRead α) off = .ok (a, off) := rfl

end FMap

theorem list_len4 {α : Type} {l : List α} (h : l.length = 4) :
    ∃ a b c d, l = [a, b, c, d] := by
  rcases l with _ | ⟨a, l⟩
  · simp at h
  rcases l with _ | ⟨b, l⟩
  · simp at h
  rcases l with _ | ⟨c, l⟩
  · simp at h
  rcases l with _ | ⟨d, l⟩
  · simp at h
  rcases l with _ | ⟨e, l⟩
  · exact ⟨a, b, c, d, rfl⟩
  · simp at h

theorem rdI32_ok (data : Bytes) (off : Nat) (h : off + 4 ≤ data.length) :
    ∃ v, FMap.rdI32 data off = .ok (v, off + 4) := by
  have hlen : ((data.drop off).take 4).length = 4 := by
    simp only [List.length_take, List.length_drop]
    omega
  obtain ⟨a, b, c, d, hl⟩ := list_len4 hlen
  exact ⟨toSigned32 (u32be a b c d), by unfold FMap.rdI32; rw [hl]⟩

theorem rdI32_err (data : Bytes) (off : Nat) (h : data.length < off + 4) :
    FMap.rdI32 data off = .error off := by
  have hlen : ((data.drop off).take 4).length < 4 := by
    simp only [List.length_take, List.length_drop]
    omega
  unfold FMap.rdI32
  rcases hl : (data.drop off).take 4 with _ | ⟨a, _ | ⟨b, _ | ⟨c, _ | ⟨d, _ | ⟨e, t⟩⟩⟩⟩⟩
  all_goals first
    | rfl
    | (rw [hl] at hlen; simp at hlen)

/-- With at least 60 bytes, every unguarded read of the header record
succeeds and the reader lands at offset 236. -/
theorem read_header_ok (data : Bytes) (h : 60 ≤ data.length) :
    ∃ hd, FMap.read_header data 0 = .ok (hd, 236) := by
  obtain ⟨v1, h1⟩ := rdI32_ok data 0 (by omega)
  obtain ⟨v2, h2⟩ := rdI32_ok data 20 (by omega)
  obtain ⟨v3, h3⟩ := rdI32_ok data 24 (by omega)
  obtain ⟨v4, h4⟩ := rdI32_ok data 28 (by omega)
  obtain ⟨v5, h5⟩ := rdI32_ok data 32 (by omega)
  obtain ⟨v6, h6⟩ := rdI32_ok data 36 (by omega)
  obtain ⟨v7, h7⟩ := rdI32_ok data 40 (by omega)
  obtain ⟨v8, h8⟩ := rdI32_ok data 44 (by omega)
  obtain ⟨v9, h9⟩ := rdI32_ok data 48 (by omega)
  obtain ⟨v10, h10⟩ := rdI32_ok data 52 (by omega)
  obtain ⟨v11, h11⟩ := rdI32_ok data 56 (by omega)
  refine ⟨⟨v1, decodeAsciiReplace (FMap.rstripZeros ((data.drop 4).take 16)),
    v2, v3, v4, v5, v6, v7, v8, v9, v10, v11⟩, ?_⟩
  unfold FMap.read_header
  simp [FMap.PRead.run_bind, FMap.PRead.run_pure, FMap.rdBytes, FMap.rdSkip,
    h1, h2, h3, h4, h5, h6, h7, h8, h9, h10, h11]

/-- With fewer than 60 bytes, some header read raises: the last header field
sits at offsets 56–59, and `read_bytes`/`skip` never raise. -/
theorem read_header_err (data : Bytes) (h : data.length < 60) :
    ∃ e, FMap.read_header data 0 = .error e := by
  by_cases c1 : data.length < 4
  · exact ⟨0, by
      unfold FMap.read_header
      simp [FMap.PRead.run_bind, rdI32_err data 0 (by omega)]⟩
  obtain ⟨v1, h1⟩ := rdI32_ok data 0 (by omega)
  by_cases c2 : data.length < 24
  · exact ⟨20, by
      unfold FMap.read_header
      simp [FMap.PRead.run_bind, FMap.rdBytes, h1, rdI32_err data 20 (by omega)]⟩
  obtain ⟨v2, h2⟩ := rdI32_ok data 20 (by omega)
  by_cases c3 : data.length < 28
  · exact ⟨24, by
      unfold FMap.read_header
      simp [FMap.PRead.run_bind, FMap.rdBytes, h1, h2, rdI32_err data 24 (by omega)]⟩
  obtain ⟨v3, h3⟩ := rdI32_ok data 24 (by omega)
  by_cases c4 : data.length < 32
  · exact ⟨28, by
      unfold FMap.read_header
      simp [FMap.PRead.run_bind, FMap.rdBytes, h1, h2, h3, rdI32_err data 28 (by omega)]⟩
  obtain ⟨v4, h4⟩ := rdI32_ok data 28 (by omega)
  by_cases c5 : data.length < 36
  · exact ⟨32, by
      unfold FMap.read_header
      simp [FMap.PRead.run_bind, FMap.rdBytes, h1, h2, h3, h4, rdI32_err data 32 (by omega)]⟩
  obtain ⟨v5, h5⟩ := rdI32_ok data 32 (by omega)
  by_cases c6 : data.length < 40
  · exact ⟨36, by
      unfold FMap.read_header
      simp [FMap.PRead.run_bind, FMap.rdBytes, h1, h2, h3, h4, h5,
        rdI32_err data 36 (by omega)]⟩
  obtain ⟨v6, h6⟩ := rdI32_ok data 36 (by omega)
  by_cases c7 : data.length < 44
  · exact ⟨40, by
      unfold FMap.read_header
      simp [FMap.PRead.run_bind, FMap.rdBytes, h1, h2, h3, h4, h5, h6,
        rdI32_err data 40 (by omega)]⟩
  obtain ⟨v7, h7⟩ := rdI32_ok data 40 (by omega)
  by_cases c8 : data.length < 48
  · exact ⟨44, by
      unfold FMap.read_header
      simp [FMap.PRead.run_bind, FMap.rdBytes, h1, h2, h3, h4, h5, h6, h7,
        rdI32_err data 44 (by omega)]⟩
  obtain ⟨v8, h8⟩ := rdI32_ok data 44 (by omega)
  by_cases c9 : data.length < 52
  · exact ⟨48, by
      unfold FMap.read_header
      simp [FMap.PRead.run_bind, FMap.rdBytes, h1, h2, h3, h4, h5, h6, h7, h8,
        rdI32_err data 48 (by omega)]⟩
  obtain ⟨v9, h9⟩ := rdI32_ok data 48 (by omega)
  by_cases c10 : data.length < 56
  · exact ⟨52, by
      unfold FMap.read_header
      simp [FMap.PRead.run_bind, FMap.rdBytes, h1, h2, h3, h4, h5, h6, h7, h8, h9,
        rdI32_err data 52 (by omega)]⟩
  obtain ⟨v10, h10⟩ := rdI32_ok data 52 (by omega)
  exact ⟨56, by
    unfold FMap.read_header
    simp [FMap.PRead.run_bind, FMap.rdBytes, h1, h2, h3, h4, h5, h6, h7, h8, h9, h10,
      rdI32_err data 56 (by omega)]⟩

/-- `parse` raises exactly when the header read raises; everything after the
header returns a (possibly partial) `Map`. -/
theorem parse_error_iff (P : FMap.MapParser) (data : Bytes) :
    (∃ e, FMap.parse P data = .error e) ↔ (∃ e, FMap.read_header data 0 = .error e) := by
  rcases hh : FMap.read_header data 0 with e | ho
  · constructor
    · intro _
      exact ⟨e, rfl⟩
    · intro _
      exact ⟨e, by unfold FMap.parse; rw [hh]⟩
  · constructor
    · rintro ⟨e2, he2⟩
      exfalso
      unfold FMap.parse at he2
      rw [hh] at he2
      rcases ho with ⟨hd, o⟩
      dsimp only at he2
      split at he2
      · exact absurd he2 (by simp)
      · exact absurd he2 (by simp)
    · rintro ⟨e2, he2⟩
      exact absurd he2 (by simp)

/-- **C8 (amended).** Map parsing raises (`struct.error` escapes `parse`)
exactly when the buffer is shorter than 60 bytes — too short for the twelve
unguarded int32 reads of the fixed header, the last of which ends at byte
60.  Buffers of 60 or more bytes always yield a structured (possibly
partial) `Map`, even when shorter than the full 236-byte header record,
since the name read, the reserved-word skip and everything after the header
never raise.  Truncation is thus fatal in the map deserializer itself for
sub-60-byte buffers, contrary to the claim. -/
theorem C8_map_parse_raises_iff_short (P : FMap.MapParser) (data : Bytes) :
    (∃ e, FMap.parse P data = .error e) ↔ data.length < 60 := by
  rw [parse_error_iff]
  constructor
  · rintro ⟨e, he⟩
    by_contra hlen
    push_neg at hlen
    obtain ⟨hd, hok⟩ := read_header_ok data hlen
    rw [hok] at he
    exact absurd he (by simp)
  · intro h
    exact read_header_err data h

/-- **C8 counterexample.** The empty buffer — shorter than the fixed header
record needs — makes `parse` raise (modelled as an `Except.error` carrying
the offset of the failed read) rather than return a partial structured
result. -/
theorem C8_counterexample :
    FMap.parse ⟨[], []⟩ [] = .error 0 := rfl

/-! ## Reading back constructed map buffers -/

/-- A take-of-drop entirely inside the left part of an append. -/
theorem takeDrop_inPre (pre rest : Bytes) (off n : Nat) (h : off + n ≤ pre.length) :
    ((pre ++ rest).drop off).take n = (pre.drop off).take n := by
  rw [List.drop_append_of_le_length (by omega),
    List.take_append_of_le_length (by simp only [List.length_drop]; omega)]

/-- `read_int32` only looks at the prefix when the read fits inside it. -/
theorem rdI32_inPre (pre rest : Bytes) (off : Nat) (h : off + 4 ≤ pre.length) :
    FMap.rdI32 (pre ++ rest) off = FMap.rdI32 pre off := by
  unfold FMap.rdI32
  rw [takeDrop_inPre pre rest off 4 h]

/-- A direct int32 unpack only looks at the prefix when the read fits
inside it. -/
theorem i32At_inPre (pre rest : Bytes) (off : Nat) (h : off + 4 ≤ pre.length) :
    FMap.i32At (pre ++ rest) off = FMap.i32At pre off := by
  unfold FMap.i32At
  rw [takeDrop_inPre pre rest off 4 h]

/-- Reading an int32 where the buffer's tail is a four-byte signed encoding
recovers the encoded value and steps past it. -/
theorem rdI32_at (data rest : Bytes) (off : Nat) (v : Int)
    (hlo : -2147483648 ≤ v) (hhi : v < 2147483648)
    (hd : data.drop off = enc32i v ++ rest) :
    FMap.rdI32 data off = .ok (v, off + 4) ∧ data.drop (off + 4) = rest := by
  constructor
  · unfold FMap.rdI32
    rw [hd]
    simp only [enc32i, enc32, List.cons_append, List.nil_append, List.take_succ_cons,
      List.take_zero]
    have hu : u32be ((v.emod 4294967296).toNat / 16777216 % 256)
        ((v.emod 4294967296).toNat / 65536 % 256) ((v.emod 4294967296).toNat / 256 % 256)
        ((v.emod 4294967296).toNat % 256) = (v.emod 4294967296).toNat := by
      have he : v.emod 4294967296 = v % 4294967296 := rfl
      unfold u32be
      rw [he]
      omega
    rw [hu]
    have hs : toSigned32 ((v.emod 4294967296).toNat) = v := by
      have he : v.emod 4294967296 = v % 4294967296 := rfl
      unfold toSigned32
      rw [he]
      split <;> omega
    rw [hs]
  · have hdd : data.drop (off + 4) = (data.drop off).drop 4 := by
      rw [List.drop_drop]
    rw [hdd, hd]
    simp [enc32i, enc32]

/-- A signed 32-bit encoding is four bytes. -/
theorem enc32i_length (v : Int) : (enc32i v).length = 4 := rfl

/-- A simple object's record is 88 bytes. -/
theorem SimpleObj.enc_length (o : SimpleObj) : o.enc.length = 88 := by
  simp [SimpleObj.enc, enc32i_length]

/-- The PID type tag of a Misc PID built from low bits below `2 ^ 24`. -/
theorem highByteI_miscPid (p : Int) (h0 : 0 ≤ p) (hlt : p < 16777216) :
    highByteI (83886080 + p) = 5 := by
  unfold highByteI
  rw [Int.fdiv_eq_ediv _ (by norm_num)]
  have hq : (83886080 + p) / 16777216 = 5 := by omega
  rw [hq]
  rfl

/-- `_read_object` on a simple object's record: every read succeeds, the
PID dispatch lands in the Misc arm outside the exit-grid range, the
inventory is empty, and the reader advances exactly 88 bytes. -/
theorem read_object_simple (P : FMap.MapParser) (data rest : Bytes) (o : SimpleObj)
    (elev : Int) (fuel off : Nat) (hwf : o.WF) (hd : data.drop off = o.enc ++ rest) :
    FMap.read_object P data (fuel + 1) elev off = (some (o.toObj elev), off + 88) := by
  obtain ⟨w1, w2, w3, w4, w5, w6, w7, w8, w9, w10, w11, hp, w13, w14, w15, w16, w17, w18,
    w19, w20, w21⟩ := hwf
  obtain ⟨hp0, hplt, hpr⟩ := hp
  have hd0 : data.drop off =
      enc32i o.oid ++ (enc32i o.tile ++ (enc32i o.x ++ (enc32i o.y ++ (enc32i o.sx ++
      (enc32i o.sy ++ (enc32i o.frame ++ (enc32i o.rota ++ (enc32i o.fid ++
      (enc32i o.flags ++ (enc32i o.eldisk ++ (enc32i (83886080 + o.pidLow) ++
      (enc32i o.cid ++ (enc32i o.light_distance ++ (enc32i o.light_intensity ++
      (enc32i o.f74 ++ (enc32i o.sid ++ (enc32i o.mli ++ (enc32i 0 ++ (enc32i o.ic ++
      (enc32i o.ptr ++ (enc32i o.ifl ++ rest))))))))))))))))))))) := by
    rw [hd]
    simp only [SimpleObj.enc, List.append_assoc]
  obtain ⟨r1, d1⟩ := rdI32_at data _ off o.oid w1.1 w1.2 hd0
  obtain ⟨r2, d2⟩ := rdI32_at data _ _ o.tile w2.1 w2.2 d1
  obtain ⟨r3, d3⟩ := rdI32_at data _ _ o.x w3.1 w3.2 d2
  obtain ⟨r4, d4⟩ := rdI32_at data _ _ o.y w4.1 w4.2 d3
  obtain ⟨r5, d5⟩ := rdI32_at data _ _ o.sx w5.1 w5.2 d4
  obtain ⟨r6, d6⟩ := rdI32_at data _ _ o.sy w6.1 w6.2 d5
  obtain ⟨r7, d7⟩ := rdI32_at data _ _ o.frame w7.1 w7.2 d6
  obtain ⟨r8, d8⟩ := rdI32_at data _ _ o.rota w8.1 w8.2 d7
  obtain ⟨r9, d9⟩ := rdI32_at data _ _ o.fid w9.1 w9.2 d8
  obtain ⟨r10, d10⟩ := rdI32_at data _ _ o.flags w10.1 w10.2 d9
  obtain ⟨r11, d11⟩ := rdI32_at data _ _ o.eldisk w11.1 w11.2 d10
  obtain ⟨r12, d12⟩ := rdI32_at data _ _ (83886080 + o.pidLow) (by omega) (by omega) d11
  obtain ⟨r13, d13⟩ := rdI32_at data _ _ o.cid w13.1 w13.2 d12
  obtain ⟨r14, d14⟩ := rdI32_at data _ _ o.light_distance w14.1 w14.2 d13
  obtain ⟨r15, d15⟩ := rdI32_at data _ _ o.light_intensity w15.1 w15.2 d14
  obtain ⟨r16, d16⟩ := rdI32_at data _ _ o.f74 w16.1 w16.2 d15
  obtain ⟨r17, d17⟩ := rdI32_at data _ _ o.sid w17.1 w17.2 d16
  obtain ⟨r18, d18⟩ := rdI32_at data _ _ o.mli w18.1 w18.2 d17
  obtain ⟨r19, d19⟩ := rdI32_at data _ _ 0 (by norm_num) (by norm_num) d18
  obtain ⟨r20, d20⟩ := rdI32_at data _ _ o.ic w19.1 w19.2 d19
  obtain ⟨r21, d21⟩ := rdI32_at data _ _ o.ptr w20.1 w20.2 d20
  obtain ⟨r22, d22⟩ := rdI32_at data _ _ o.ifl w21.1 w21.2 d21
  have hhb : highByteI (83886080 + o.pidLow) = 5 := highByteI_miscPid o.pidLow hp0 hplt
  have hrange : ¬((83886096 : Int) ≤ 83886080 + o.pidLow ∧
      83886080 + o.pidLow ≤ 83886103) := by omega
  simp [FMap.read_object, FMap.read_proto_update_data, FMap.PRead.run_bind,
    FMap.PRead.run_pure, r1, r2, r3, r4, r5, r6, r7, r8, r9, r10, r11, r12, r13, r14, r15,
    r16, r17, r18, r19, r20, r21, r22, hhb, hrange, FMap.ProtoUpdate.base, SimpleObj.toObj]

/-- `_read_object` at or past the end of the buffer: the first read raises,
the handler drops the object and leaves the reader in place. -/
theorem read_object_past (P : FMap.MapParser) (data : Bytes) (elev : Int) (fuel off : Nat)
    (h : data.length ≤ off) :
    FMap.read_object P data (fuel + 1) elev off = (none, off) := by
  simp [FMap.read_object, FMap.PRead.run_bind, rdI32_err data off (by omega)]

/-- The header of the C4 test map parses to `c4header` regardless of what
follows the 264-byte prefix. -/
theorem read_header_c4 (rest : Bytes) :
    FMap.read_header (c4pre ++ rest) 0 = .ok (c4header, 236) := by
  have r0 : FMap.rdI32 (c4pre ++ rest) 0 = .ok (20, 4) := by
    rw [rdI32_inPre _ _ _ (by decide)]; rfl
  have rb : ((c4pre ++ rest).drop 4).take 16 = List.replicate 16 0 := by
    rw [takeDrop_inPre _ _ _ _ (by decide)]; rfl
  have r20 : FMap.rdI32 (c4pre ++ rest) 20 = .ok (0, 24) := by
    rw [rdI32_inPre _ _ _ (by decide)]; rfl
  have r24 : FMap.rdI32 (c4pre ++ rest) 24 = .ok (0, 28) := by
    rw [rdI32_inPre _ _ _ (by decide)]; rfl
  have r28 : FMap.rdI32 (c4pre ++ rest) 28 = .ok (0, 32) := by
    rw [rdI32_inPre _ _ _ (by decide)]; rfl
  have r32 : FMap.rdI32 (c4pre ++ rest) 32 = .ok (0, 36) := by
    rw [rdI32_inPre _ _ _ (by decide)]; rfl
  have r36 : FMap.rdI32 (c4pre ++ rest) 36 = .ok (-1, 40) := by
    rw [rdI32_inPre _ _ _ (by decide)]; rfl
  have r40 : FMap.rdI32 (c4pre ++ rest) 40 = .ok (14, 44) := by
    rw [rdI32_inPre _ _ _ (by decide)]; rfl
  have r44 : FMap.rdI32 (c4pre ++ rest) 44 = .ok (0, 48) := by
    rw [rdI32_inPre _ _ _ (by decide)]; rfl
  have r48 : FMap.rdI32 (c4pre ++ rest) 48 = .ok (0, 52) := by
    rw [rdI32_inPre _ _ _ (by decide)]; rfl
  have r52 : FMap.rdI32 (c4pre ++ rest) 52 = .ok (77, 56) := by
    rw [rdI32_inPre _ _ _ (by decide)]; rfl
  have r56 : FMap.rdI32 (c4pre ++ rest) 56 = .ok (0, 60) := by
    rw [rdI32_inPre _ _ _ (by decide)]; rfl
  have hname : decodeAsciiReplace (FMap.rstripZeros (List.replicate 16 0)) = [] := rfl
  unfold FMap.read_header
  simp [FMap.PRead.run_bind, FMap.PRead.run_pure, FMap.rdBytes, FMap.rdSkip,
    r0, rb, r20, r24, r28, r32, r36, r40, r44, r48, r52, r56, hname, c4header]
  rfl

/-- The scripts section of the C4 test map: five zero counts, five empty
buckets, continuation offset 256. -/
theorem scripts_c4 (rest : Bytes) :
    FMap.read_scripts_section (c4pre ++ rest) 236 = ([], [[], [], [], [], []], some 256) := by
  have hc : c4pre.length = 264 := rfl
  have hL : 264 ≤ (c4pre ++ rest).length := by
    rw [List.length_append, hc]
    omega
  have i236 : FMap.i32At (c4pre ++ rest) 236 = some 0 := by
    rw [i32At_inPre _ _ _ (by decide)]; rfl
  have i240 : FMap.i32At (c4pre ++ rest) 240 = some 0 := by
    rw [i32At_inPre _ _ _ (by decide)]; rfl
  have i244 : FMap.i32At (c4pre ++ rest) 244 = some 0 := by
    rw [i32At_inPre _ _ _ (by decide)]; rfl
  have i248 : FMap.i32At (c4pre ++ rest) 248 = some 0 := by
    rw [i32At_inPre _ _ _ (by decide)]; rfl
  have i252 : FMap.i32At (c4pre ++ rest) 252 = some 0 := by
    rw [i32At_inPre _ _ _ (by decide)]; rfl
  have g1 : ¬(c4pre.length + rest.length < 240) := by rw [hc]; omega
  have g2 : ¬(c4pre.length + rest.length < 244) := by rw [hc]; omega
  have g3 : ¬(c4pre.length + rest.length < 248) := by rw [hc]; omega
  have g4 : ¬(c4pre.length + rest.length < 252) := by rw [hc]; omega
  have g5 : ¬(c4pre.length + rest.length < 256) := by rw [hc]; omega
  simp [FMap.read_scripts_section, FMap.read_script_types, i236, i240, i244, i248, i252,
    g1, g2, g3, g4, g5]

/-- The whole `parse` pipeline of a C4-headed buffer, given the evaluation
of its scripts and objects sections: the offset bookkeeping skips nothing
because both variable counts are zero and all three elevation flags are
set. -/
theorem parse_c4_eval (P : FMap.MapParser) (data : Bytes)
    (obys : List (Nat × List FMap.MapObject))
    (hh : FMap.read_header data 0 = .ok (c4header, 236))
    (hsc : FMap.read_scripts_section data 236 = ([], [[], [], [], [], []], some 256))
    (hos : FMap.read_objects_section P data 256 = obys) :
    FMap.parse P data =
      .ok ⟨c4header, (obys.map Prod.snd).flatten, FMap.padElevs obys, [],
        [[], [], [], [], []]⟩ := by
  have hA2 : pyAnd32 14 2 = 2 := rfl
  have hA4 : pyAnd32 14 4 = 4 := rfl
  have hA8 : pyAnd32 14 8 = 8 := rfl
  unfold FMap.parse
  rw [hh]
  dsimp only
  simp [c4header, hA2, hA4, hA8, hsc, hos]

/-- Dropping one 88-byte object record. -/
theorem drop_enc_step (data : Bytes) (o : SimpleObj) (rest : Bytes) (off : Nat)
    (h : data.drop off = o.enc ++ rest) : data.drop (off + 88) = rest := by
  rw [← List.drop_drop, h, show (88 : Nat) = o.enc.length from (SimpleObj.enc_length o).symm,
    List.drop_left]

set_option maxHeartbeats 2000000 in
/-- **C4.** For a well-formed map file with five placed objects (all on
elevation 0, with correct counts everywhere, parsing to exactly those five
objects), truncating the byte buffer immediately after the second object's
record yields a `Map` containing exactly the two objects parsed before the
truncation point — not zero objects and not a raised exception: each object
read failure past the end is caught, the object is skipped, and the
elevations whose counts can no longer be read are left empty. -/
theorem C4_truncation_keeps_parsed_objects (P : FMap.MapParser) (o1 o2 o3 o4 o5 : SimpleObj)
    (h1 : o1.WF) (h2 : o2.WF) (h3 : o3.WF) (h4 : o4.WF) (h5 : o5.WF) :
    FMap.parse P (c4map o1 o2 o3 o4 o5) =
      .ok ⟨c4header,
        [o1.toObj 0, o2.toObj 0, o3.toObj 0, o4.toObj 0, o5.toObj 0],
        [(0, [o1.toObj 0, o2.toObj 0, o3.toObj 0, o4.toObj 0, o5.toObj 0]), (1, []), (2, [])],
        [], [[], [], [], [], []]⟩ ∧
    FMap.parse P ((c4map o1 o2 o3 o4 o5).take 440) =
      .ok ⟨c4header, [o1.toObj 0, o2.toObj 0],
        [(0, [o1.toObj 0, o2.toObj 0]), (1, []), (2, [])], [], [[], [], [], [], []]⟩ := by
  have hc : c4pre.length = 264 := rfl
  have hD1 : c4map o1 o2 o3 o4 o5 = c4pre ++ (o1.enc ++ (o2.enc ++ (o3.enc ++ (o4.enc ++
      (o5.enc ++ (enc32i 0 ++ (enc32i 0 ++ []))))))) := by
    simp [c4map]
  constructor
  · -- the untruncated file parses to all five objects
    have hlen1 : (c4map o1 o2 o3 o4 o5).length = 712 := by
      simp [c4map, SimpleObj.enc_length, enc32i_length, hc]
    have e264 : (c4map o1 o2 o3 o4 o5).drop 264 = o1.enc ++ (o2.enc ++ (o3.enc ++ (o4.enc ++
        (o5.enc ++ (enc32i 0 ++ (enc32i 0 ++ [])))))) := by
      rw [hD1, show (264 : Nat) = c4pre.length from rfl, List.drop_left]
    have e352 : (c4map o1 o2 o3 o4 o5).drop 352 = o2.enc ++ (o3.enc ++ (o4.enc ++
        (o5.enc ++ (enc32i 0 ++ (enc32i 0 ++ []))))) := by
      have h := drop_enc_step _ o1 _ 264 e264
      simpa using h
    have e440 : (c4map o1 o2 o3 o4 o5).drop 440 = o3.enc ++ (o4.enc ++
        (o5.enc ++ (enc32i 0 ++ (enc32i 0 ++ [])))) := by
      have h := drop_enc_step _ o2 _ 352 e352
      simpa using h
    have e528 : (c4map o1 o2 o3 o4 o5).drop 528 = o4.enc ++
        (o5.enc ++ (enc32i 0 ++ (enc32i 0 ++ []))) := by
      have h := drop_enc_step _ o3 _ 440 e440
      simpa using h
    have e616 : (c4map o1 o2 o3 o4 o5).drop 616 =
        o5.enc ++ (enc32i 0 ++ (enc32i 0 ++ [])) := by
      have h := drop_enc_step _ o4 _ 528 e528
      simpa using h
    have e704 : (c4map o1 o2 o3 o4 o5).drop 704 = enc32i 0 ++ (enc32i 0 ++ []) := by
      have h := drop_enc_step _ o5 _ 616 e616
      simpa using h
    obtain ⟨rz1, dz1⟩ := rdI32_at _ _ 704 0 (by norm_num) (by norm_num) e704
    obtain ⟨rz2, dz2⟩ := rdI32_at _ _ _ 0 (by norm_num) (by norm_num) dz1
    have hq1 : ∀ f, FMap.read_object P (c4map o1 o2 o3 o4 o5) (f + 1) 0 264 =
        (some (o1.toObj 0), 264 + 88) := fun f => read_object_simple P _ _ o1 0 f 264 h1 e264
    have hq2 : ∀ f, FMap.read_object P (c4map o1 o2 o3 o4 o5) (f + 1) 0 352 =
        (some (o2.toObj 0), 352 + 88) := fun f => read_object_simple P _ _ o2 0 f 352 h2 e352
    have hq3 : ∀ f, FMap.read_object P (c4map o1 o2 o3 o4 o5) (f + 1) 0 440 =
        (some (o3.toObj 0), 440 + 88) := fun f => read_object_simple P _ _ o3 0 f 440 h3 e440
    have hq4 : ∀ f, FMap.read_object P (c4map o1 o2 o3 o4 o5) (f + 1) 0 528 =
        (some (o4.toObj 0), 528 + 88) := fun f => read_object_simple P _ _ o4 0 f 528 h4 e528
    have hq5 : ∀ f, FMap.read_object P (c4map o1 o2 o3 o4 o5) (f + 1) 0 616 =
        (some (o5.toObj 0), 616 + 88) := fun f => read_object_simple P _ _ o5 0 f 616 h5 e616
    have hrd256 : FMap.rdI32 (c4map o1 o2 o3 o4 o5) 256 = .ok (5, 260) := by
      rw [hD1, rdI32_inPre _ _ _ (by decide)]; rfl
    have hrd260 : FMap.rdI32 (c4map o1 o2 o3 o4 o5) 260 = .ok (5, 264) := by
      rw [hD1, rdI32_inPre _ _ _ (by decide)]; rfl
    have hoe : FMap.read_objects_at_elev P (c4map o1 o2 o3 o4 o5) 0 5 264 =
        ([o1.toObj 0, o2.toObj 0, o3.toObj 0, o4.toObj 0, o5.toObj 0], 704) := by
      simp [FMap.read_objects_at_elev, hq1, hq2, hq3, hq4, hq5]
    have helev : FMap.read_elev_loop P (c4map o1 o2 o3 o4 o5) 5 [0, 1, 2] 260 =
        [(0, [o1.toObj 0, o2.toObj 0, o3.toObj 0, o4.toObj 0, o5.toObj 0]),
          (1, []), (2, [])] := by
      have h0elev : ∀ (ee : Int) (off : Nat),
          FMap.read_objects_at_elev P (c4map o1 o2 o3 o4 o5) ee 0 off = ([], off) :=
        fun ee off => rfl
      simp [FMap.read_elev_loop, hrd260, hoe, rz1, rz2, h0elev]
    have hos : FMap.read_objects_section P (c4map o1 o2 o3 o4 o5) 256 =
        [(0, [o1.toObj 0, o2.toObj 0, o3.toObj 0, o4.toObj 0, o5.toObj 0]),
          (1, []), (2, [])] := by
      simp [FMap.read_objects_section, hrd256, helev]
    have hh : FMap.read_header (c4map o1 o2 o3 o4 o5) 0 = .ok (c4header, 236) := by
      rw [hD1]; exact read_header_c4 _
    have hsc : FMap.read_scripts_section (c4map o1 o2 o3 o4 o5) 236 =
        ([], [[], [], [], [], []], some 256) := by
      rw [hD1]; exact scripts_c4 _
    rw [parse_c4_eval P _ _ hh hsc hos]
    simp [FMap.padElevs]
  · -- the truncated buffer parses to exactly the first two objects
    have hD2 : (c4map o1 o2 o3 o4 o5).take 440 = c4pre ++ (o1.enc ++ o2.enc) := by
      have h440 : (440 : Nat) = c4pre.length + 176 := by rw [hc]
      have h176 : (176 : Nat) = o1.enc.length + 88 := by rw [SimpleObj.enc_length]
      have h88 : (88 : Nat) = o2.enc.length := (SimpleObj.enc_length o2).symm
      rw [hD1, h440, List.take_append, h176, List.take_append, h88, List.take_left]
    have hlen2 : ((c4map o1 o2 o3 o4 o5).take 440).length = 440 := by
      rw [hD2, List.length_append, List.length_append, hc, SimpleObj.enc_length,
        SimpleObj.enc_length]
    have f264 : ((c4map o1 o2 o3 o4 o5).take 440).drop 264 = o1.enc ++ (o2.enc ++ []) := by
      rw [hD2, show (264 : Nat) = c4pre.length from rfl, List.drop_left, List.append_nil]
    have f352 : ((c4map o1 o2 o3 o4 o5).take 440).drop 352 = o2.enc ++ [] := by
      have h := drop_enc_step _ o1 _ 264 f264
      simpa using h
    have hq1 : ∀ f, FMap.read_object P ((c4map o1 o2 o3 o4 o5).take 440) (f + 1) 0 264 =
        (some (o1.toObj 0), 264 + 88) := fun f => read_object_simple P _ _ o1 0 f 264 h1 f264
    have hq2 : ∀ f, FMap.read_object P ((c4map o1 o2 o3 o4 o5).take 440) (f + 1) 0 352 =
        (some (o2.toObj 0), 352 + 88) := fun f => read_object_simple P _ _ o2 0 f 352 h2 f352
    have hqp : ∀ f, FMap.read_object P ((c4map o1 o2 o3 o4 o5).take 440) (f + 1) 0 440 =
        (none, 440) := fun f => read_object_past P _ 0 f 440 (by omega)
    have herr : FMap.rdI32 ((c4map o1 o2 o3 o4 o5).take 440) 440 = .error 440 :=
      rdI32_err _ 440 (by omega)
    have hrd256 : FMap.rdI32 ((c4map o1 o2 o3 o4 o5).take 440) 256 = .ok (5, 260) := by
      rw [hD2, rdI32_inPre _ _ _ (by decide)]; rfl
    have hrd260 : FMap.rdI32 ((c4map o1 o2 o3 o4 o5).take 440) 260 = .ok (5, 264) := by
      rw [hD2, rdI32_inPre _ _ _ (by decide)]; rfl
    have hoe : FMap.read_objects_at_elev P ((c4map o1 o2 o3 o4 o5).take 440) 0 5 264 =
        ([o1.toObj 0, o2.toObj 0], 440) := by
      simp [FMap.read_objects_at_elev, hq1, hq2, hqp]
    have helev : FMap.read_elev_loop P ((c4map o1 o2 o3 o4 o5).take 440) 5 [0, 1, 2] 260 =
        [(0, [o1.toObj 0, o2.toObj 0])] := by
      simp [FMap.read_elev_loop, hrd260, hoe, herr]
    have hos : FMap.read_objects_section P ((c4map o1 o2 o3 o4 o5).take 440) 256 =
        [(0, [o1.toObj 0, o2.toObj 0])] := by
      simp [FMap.read_objects_section, hrd256, helev]
    have hh : FMap.read_header ((c4map o1 o2 o3 o4 o5).take 440) 0 = .ok (c4header, 236) := by
      rw [hD2]; exact read_header_c4 _
    have hsc : FMap.read_scripts_section ((c4map o1 o2 o3 o4 o5).take 440) 236 =
        ([], [[], [], [], [], []], some 256) := by
      rw [hD2]; exact scripts_c4 _
    rw [parse_c4_eval P _ _ hh hsc hos]
    simp [FMap.padElevs]

/-- Witness for C4 at five concrete well-formed objects: the truncated
buffer parses to exactly the first two. -/
theorem C4_truncation_keeps_parsed_objects_witness :
    ((c4obj 1).WF ∧ (c4obj 2).WF ∧ (c4obj 3).WF ∧ (c4obj 4).WF ∧ (c4obj 5).WF) ∧
    FMap.parse ⟨[], []⟩ ((c4map (c4obj 1) (c4obj 2) (c4obj 3) (c4obj 4) (c4obj 5)).take 440) =
      .ok ⟨c4header, [(c4obj 1).toObj 0, (c4obj 2).toObj 0],
        [(0, [(c4obj 1).toObj 0, (c4obj 2).toObj 0]), (1, []), (2, [])], [],
        [[], [], [], [], []]⟩ :=
  ⟨⟨by decide, by decide, by decide, by decide, by decide⟩,
    (C4_truncation_keeps_parsed_objects ⟨[], []⟩ (c4obj 1) (c4obj 2) (c4obj 3) (c4obj 4)
      (c4obj 5) (by decide) (by decide) (by decide) (by decide) (by decide)).2⟩
